import Mathlib

/-!
Verification development for the taco tensor storage/traversal core
(`src/include/taco/tensor.h`).

The definitions below are a shallow embedding of the code in
`tensor.h`.  Components of the repository that are only declared there
(their definitions live in translation units absent from `src/`) are
modelled from the specification and carry a doc comment starting with
`Modelled from the spec:`.
-/

namespace Taco

/-- Modelled from the spec: the per-dimension mode types (`taco/format.h`
is absent from `src/`).  `Dense` and `Sparse` (compressed) are the two
implemented storage disciplines; `Fixed` stands for a declared mode type
that the traversal engine does not implement (§7 `UnsupportedModeType`). -/
inductive ModeTypeT
  | Dense
  | Sparse
  | Fixed
deriving DecidableEq, Repr

/-- Modelled from the spec: a Mode Index is the per-level collection of
index arrays (§3, §4.3): for `Dense` a single synthetic array holding the
extent at slot 0, for `Sparse` the position array at slot 0 and the
coordinate array at slot 1 (`taco/storage/index.h` is absent from `src/`). -/
structure ModeIndexT where
  arrays : List (List Nat)
deriving DecidableEq, Repr

/-- `ModeIndex.getIndexArray`. -/
def getIndexArray (m : ModeIndexT) (i : Nat) : List Nat :=
  m.arrays.getD i []

/-- Modelled from the spec: the tensor Index is the ordered sequence of
Mode Indices plus the total stored-entry count `getSize` (§3 "Index"). -/
structure IndexT where
  modeIndices : List ModeIndexT
  size : Nat
deriving DecidableEq, Repr

/-- Modelled from the spec: a Format is the per-level mode types together
with the mode ordering permutation (§3 "Format"). -/
structure FormatT where
  modeTypes : List ModeTypeT
  modeOrdering : List Nat
deriving DecidableEq, Repr

/-- The data the traversal engine reads from a packed tensor: its order,
format, index (per-level mode indices) and flat value array. -/
structure PackedTensorT (α : Type) where
  order : Nat
  format : FormatT
  index : IndexT
  vals : List α
deriving DecidableEq

/-- List lookup with default 0, used for the `TypedIndexVector` reads. -/
def lget (l : List Nat) (i : Nat) : Nat :=
  l.getD i 0

/-- Mode type of level `lvl` (`modeTypes[lvl]`). -/
def mtAt (t : PackedTensorT α) (lvl : Nat) : ModeTypeT :=
  t.format.modeTypes.getD lvl ModeTypeT.Fixed

/-- `storage.getIndex().getModeIndex(lvl).getIndexArray(i)`. -/
def miArr (t : PackedTensorT α) (lvl i : Nat) : List Nat :=
  getIndexArray (t.index.modeIndices.getD lvl ⟨[]⟩) i

/-- The iterator's mutable cursor state: per-level coordinates `coord`,
per-level positions `ptrs`, the current (coordinate vector, value) pair
`curVal`, and the resume flag `advance`
(`Tensor::const_iterator`, tensor.h:439-444). -/
structure IterState (α : Type) where
  coord : List Nat
  ptrs : List Nat
  curVal : List Nat × α
  advance : Bool
deriving DecidableEq

/-- `2^64`: the modulus of `size_t` arithmetic. -/
def USIZE : Nat := 2 ^ 64

/-- The index at which the Dense branch reads `ptrs[lvl - 1]`
(tensor.h:398) with `size_t lvl`: for `lvl = 0` the subtraction wraps
around to `2^64 - 1`. -/
def denseBaseIdx (lvl : Nat) : Nat :=
  (lvl + (USIZE - 1)) % USIZE

/-- The leaf assignment loop (tensor.h:384-387):
`for i < n: cur[modeOrdering[i]] := coord[i]`. -/
def permAssign (ordering coord cur : List Nat) (n : Nat) : List Nat :=
  (List.range n).foldl (fun acc i => acc.set (ordering.getD i 0) (coord.getD i 0)) cur

/-- The Dense loop of `advanceIndex` (tensor.h:405-412), with the descent
into the next level abstracted as `next`.  The loop counter `c` is the
value held in `coord[lvl]`; each iteration stores it and sets
`ptrs[lvl] = base + coord[lvl]` before descending. -/
def advDense (next : IterState α → Except Nat (Bool × IterState α))
    (lvl size base : Nat) : Nat → IterState α → Except Nat (Bool × IterState α) :=
  fun c s =>
    let s0 : IterState α := { s with coord := s.coord.set lvl c }
    if h : c < size then
      let s1 : IterState α := { s0 with ptrs := s0.ptrs.set lvl (base + c) }
      match next s1 with
      | .ok (true, s') => .ok (true, s')
      | .ok (false, s') => advDense next lvl size base (c + 1) s'
      | .error e => .error e
    else
      .ok (false, s0)
termination_by c => size - c
decreasing_by omega

/-- The Sparse (compressed) loop of `advanceIndex` (tensor.h:422-431):
positions `p` range up to `pend = pos[k+1]`; each iteration stores
`ptrs[lvl] = p` and `coord[lvl] = idxA[p]` before descending. -/
def advSparse (next : IterState α → Except Nat (Bool × IterState α))
    (lvl : Nat) (idxA : List Nat) (pend : Nat) :
    Nat → IterState α → Except Nat (Bool × IterState α) :=
  fun p s =>
    let s0 : IterState α := { s with ptrs := s.ptrs.set lvl p }
    if h : p < pend then
      let s1 : IterState α := { s0 with coord := s0.coord.set lvl (lget idxA p) }
      match next s1 with
      | .ok (true, s') => .ok (true, s')
      | .ok (false, s') => advSparse next lvl idxA pend (p + 1) s'
      | .error e => .error e
    else
      .ok (false, s0)
termination_by p => pend - p
decreasing_by omega

/-- `Tensor::const_iterator::advanceIndex(lvl)` (tensor.h:369-437), as a
state-passing function.  `rem` is the number of levels below the current
one (`rem = order - lvl`); the recursion is structural on `rem`.  The
result is `.ok (produced?, state)` or `.error lvl` for the
`taco_not_supported_yet` branch (tensor.h:433).  In the Dense branch the
base position is read from `ptrs` at index `denseBaseIdx lvl`
(the `size_t` value of `lvl - 1`, tensor.h:398) and then overridden to 0
when `lvl == 0` (tensor.h:399). -/
def adv (t : PackedTensorT α) (dflt : α) :
    Nat → Nat → IterState α → Except Nat (Bool × IterState α)
  | 0, lvl, s =>
    if s.advance then
      .ok (false, { s with advance := false })
    else
      let idx := if lvl = 0 then 0 else lget s.ptrs (lvl - 1)
      let first := permAssign t.format.modeOrdering s.coord s.curVal.1 lvl
      let second := t.vals.getD idx dflt
      .ok (true, { s with curVal := (first, second), advance := true })
  | rem + 1, lvl, s =>
    match mtAt t lvl with
    | .Dense =>
      let size := lget (miArr t lvl 0) 0
      let baseRaw := lget s.ptrs (denseBaseIdx lvl) * size
      let base := if lvl = 0 then 0 else baseRaw
      if s.advance then
        match adv t dflt rem (lvl + 1) s with
        | .ok (true, s') => .ok (true, s')
        | .ok (false, s') =>
          advDense (adv t dflt rem (lvl + 1)) lvl size base (lget s'.coord lvl + 1) s'
        | .error e => .error e
      else
        advDense (adv t dflt rem (lvl + 1)) lvl size base 0 s
    | .Sparse =>
      let pos := miArr t lvl 0
      let idxA := miArr t lvl 1
      let k := if lvl = 0 then 0 else lget s.ptrs (lvl - 1)
      let pend := lget pos (k + 1)
      if s.advance then
        match adv t dflt rem (lvl + 1) s with
        | .ok (true, s') => .ok (true, s')
        | .ok (false, s') =>
          advSparse (adv t dflt rem (lvl + 1)) lvl idxA pend (lget s'.ptrs lvl + 1) s'
        | .error e => .error e
      else
        advSparse (adv t dflt rem (lvl + 1)) lvl idxA pend (lget pos k) s
    | .Fixed => .error lvl

/-- The iterator's initial cursor state (tensor.h:354-360):
zero-initialized `coord`/`ptrs`/`curVal` of length `order`, `advance`
cleared. -/
def initState (t : PackedTensorT α) (dflt : α) : IterState α :=
  { coord := List.replicate t.order 0
  , ptrs := List.replicate t.order 0
  , curVal := (List.replicate t.order 0, dflt)
  , advance := false }

/-- The depth-first enumeration of leaves the spec describes (§4.4): at a
Dense level the candidate child positions range over `[0, extent)` scaled
by the parent's position (synthetic root position 0 at level 0); at a
Compressed level they range over `[pos[parentPos], pos[parentPos+1])` with
the coordinate read from the coordinate array; at the deepest level the
coordinate vector permuted back through the mode ordering is paired with
the value-array entry at the last level's offset. -/
def dfs (t : PackedTensorT α) (dflt : α) :
    Nat → Nat → Nat → List Nat → List (List Nat × α)
  | 0, lvl, parent, path =>
    [(permAssign t.format.modeOrdering path (List.replicate t.order 0) t.order,
      t.vals.getD (if lvl = 0 then 0 else parent) dflt)]
  | rem + 1, lvl, parent, path =>
    match mtAt t lvl with
    | .Dense =>
      let size := lget (miArr t lvl 0) 0
      let base := if lvl = 0 then 0 else parent * size
      (List.range size).flatMap fun c =>
        dfs t dflt rem (lvl + 1) (base + c) (path ++ [c])
    | .Sparse =>
      let pos := miArr t lvl 0
      let k := if lvl = 0 then 0 else parent
      (List.range' (lget pos k) (lget pos (k + 1) - lget pos k)).flatMap fun p =>
        dfs t dflt rem (lvl + 1) p (path ++ [lget (miArr t lvl 1) p])
    | .Fixed => []

/-- The leaves enumerated from the root. -/
def dfsAll (t : PackedTensorT α) (dflt : α) : List (List Nat × α) :=
  dfs t dflt t.order 0 0 []

/-- The trace of leaves produced by repeatedly re-invoking a step
function after a step result: a `false` step ends the trace, a `true`
step contributes the state's `curVal` and continues from that state. -/
inductive ResumeTr (next : IterState α → Except Nat (Bool × IterState α)) :
    (Bool × IterState α) → List (List Nat × α) → IterState α → Prop
  | done (s : IterState α) : ResumeTr next (false, s) [] s
  | more (s : IterState α) (r : Bool × IterState α) (l : List (List Nat × α))
      (s2 : IterState α) (h : next s = .ok r) (ht : ResumeTr next r l s2) :
      ResumeTr next (true, s) (s.curVal :: l) s2

/-- The tensor enumerates the list `l`: starting from the initial cursor
state, the successive `advanceIndex` calls produce exactly the elements
of `l` and then report exhaustion. -/
def Enumerates (t : PackedTensorT α) (dflt : α) (l : List (List Nat × α)) : Prop :=
  ∃ r sEnd, adv t dflt t.order 0 (initState t dflt) = .ok r ∧
    ResumeTr (adv t dflt t.order 0) r l sEnd

/-- Executable collection of the first `fuel` produced pairs. -/
def collect (t : PackedTensorT α) (dflt : α) : Nat → IterState α → List (List Nat × α)
  | 0, _ => []
  | fuel + 1, s =>
    match adv t dflt t.order 0 s with
    | .ok (true, s') => s'.curVal :: collect t dflt fuel s'
    | _ => []

/-- Well-formedness of a packed tensor: per-level metadata has one entry
per mode, the mode ordering is a permutation of the dimensions, and the
order fits in `size_t`. -/
def WFT (t : PackedTensorT α) : Prop :=
  t.format.modeTypes.length = t.order ∧
  t.format.modeOrdering.length = t.order ∧
  t.format.modeOrdering.Perm (List.range t.order) ∧
  t.order < USIZE

/-- All mode types are implemented by the traversal engine. -/
def SupportedT (t : PackedTensorT α) : Prop :=
  ∀ mt ∈ t.format.modeTypes, mt = ModeTypeT.Dense ∨ mt = ModeTypeT.Sparse

/-- Basic length/shape consistency of a cursor state. -/
def stateOK (t : PackedTensorT α) (s : IterState α) : Prop :=
  s.coord.length = t.order ∧ s.ptrs.length = t.order ∧ s.curVal.1.length = t.order

/-- The cursor entries strictly below `lvl` agree between two states. -/
def frameLe (lvl : Nat) (s s' : IterState α) : Prop :=
  ∀ i, i < lvl → lget s'.coord i = lget s.coord i ∧ lget s'.ptrs i = lget s.ptrs i

/-- The parent position a level sees: the synthetic root position 0 at
level 0, otherwise `ptrs[lvl-1]`. -/
def parentOf (lvl : Nat) (s : IterState α) : Nat :=
  if lvl = 0 then 0 else lget s.ptrs (lvl - 1)

/-- Per-call frame of `advanceIndex(lvl)`: lengths are preserved and no
cursor entry below `lvl` changes. -/
def framePr (lvl : Nat) (s s2 : IterState α) : Prop :=
  s2.coord.length = s.coord.length ∧ s2.ptrs.length = s.ptrs.length ∧
  s2.curVal.1.length = s.curVal.1.length ∧ frameLe lvl s s2

/-- The simulation statement at a given depth: from any consistent fresh
state, `advanceIndex(lvl)` together with its resumed continuations emits
exactly the depth-first leaf enumeration of the subtree, ending in a
consistent fresh state that agrees below `lvl`. -/
def SimIH (t : PackedTensorT α) (dflt : α) (rem : Nat) : Prop :=
  ∀ lvl s, lvl + rem = t.order → stateOK t s → s.advance = false →
    ∃ r sEnd, adv t dflt rem lvl s = .ok r ∧
      ResumeTr (adv t dflt rem lvl) r
        (dfs t dflt rem lvl (parentOf lvl s) (s.coord.take lvl)) sEnd ∧
      stateOK t sEnd ∧ sEnd.advance = false ∧ frameLe lvl s sEnd

/-! ### The `const_iterator` count bookkeeping (tensor.h:324-367, 447-453) -/

/-- A `const_iterator` as far as `operator==` is concerned: the tensor it
references (modelled by an address `tid`), its cursor state, and the
elements-produced count. -/
structure TIter (α : Type) where
  tid : Nat
  st : IterState α
  count : Nat
deriving DecidableEq

/-- The private constructor (tensor.h:354-362): `count` starts at
`1 + isEnd * getSize()` and the constructor body runs `advanceIndex()`,
which advances the cursor once and increments `count`. -/
def mkIter (t : PackedTensorT α) (dflt : α) (tid : Nat) (isEnd : Bool) : TIter α :=
  let s0 := initState t dflt
  { tid := tid
  , st := match adv t dflt t.order 0 s0 with
          | .ok (_, s') => s'
          | .error _ => s0
  , count := (1 + (if isEnd then t.index.size else 0)) + 1 }

/-- `operator++` (tensor.h:324-327): run `advanceIndex`, which advances
the cursor and increments `count`. -/
def stepIter (t : PackedTensorT α) (dflt : α) (it : TIter α) : TIter α :=
  { it with
    st := match adv t dflt t.order 0 it.st with
          | .ok (_, s') => s'
          | .error _ => it.st
  , count := it.count + 1 }

/-- `operator==` (tensor.h:343-345): same referenced tensor and same
count; the cursor state and storage are not consulted. -/
def iterEq (a b : TIter α) : Prop :=
  a.tid = b.tid ∧ a.count = b.count

/-! ### Coordinate buffer and `TensorBase::insert` (tensor.h:113-131) -/

/-- Modelled from the spec: the component DataType tags (`taco/type.h` is
absent from `src/`). -/
inductive DataTypeT
  | i32
  | i64
  | f32
  | f64
deriving DecidableEq, Repr

/-- Modelled from the spec: the byte size of one component of each kind. -/
def dtSize : DataTypeT → Nat
  | .i32 => 4
  | .i64 => 8
  | .f32 => 4
  | .f64 => 8

/-- A type-erased component value: its kind tag and its payload bits. -/
structure TValT where
  dt : DataTypeT
  bits : Int
deriving DecidableEq, Repr

/-- Modelled from the spec: the error taxonomy of §7 (`taco/error.h` is
absent from `src/`); `insert`'s two `taco_uassert` failures surface as
`DimensionMismatch` and `TypeMismatch`. -/
inductive TacoErrT
  | DimensionMismatch
  | TypeMismatch
  | OutOfBounds
  | InvalidModeAccess
  | UnsupportedModeType
deriving DecidableEq, Repr

/-- One coordinate-buffer record: `order`-many int coordinates followed
by one typed value. -/
structure RecordT where
  coords : List Int
  val : TValT
deriving DecidableEq, Repr

/-- The shared coordinate buffer (`std::vector<char>`): its current size
in bytes together with the records written into it, keyed by the byte
offset at which each write happened (later writes listed first). -/
structure BufferT where
  sizeBytes : Nat
  recs : List (Nat × RecordT)
deriving DecidableEq, Repr

/-- The `TensorBase` fields `insert` reads and writes (tensor.h:231-237):
the tensor metadata, the shared coordinate buffer, and the
handle-local `coordinateBufferUsed` / `coordinateSize` counters. -/
structure TBaseT where
  order : Nat
  ctype : DataTypeT
  dims : List Nat
  coordSize : Nat
  buffer : BufferT
  used : Nat
deriving DecidableEq, Repr

/-- `TensorBase::insert(coordinate, value)` (tensor.h:113-131).  The two
`taco_uassert`s fire, in order, on arity mismatch and on component-type
mismatch, leaving the state untouched; otherwise the buffer is resized by
one record when the free space is short (tensor.h:120-122) and the record
(coordinates then value) is written at offset `coordinateBufferUsed`,
which then advances by `coordinateSize`.  No bounds check, sorting or
deduplication happens. -/
def insertTB (t : TBaseT) (coordinate : List Int) (vdt : DataTypeT) (v : Int) :
    Option TacoErrT × TBaseT :=
  if coordinate.length ≠ t.order then
    (some .DimensionMismatch, t)
  else if t.ctype ≠ vdt then
    (some .TypeMismatch, t)
  else
    let buf :=
      if t.buffer.sizeBytes - t.used < t.coordSize then
        { t.buffer with sizeBytes := t.buffer.sizeBytes + t.coordSize }
      else t.buffer
    let buf2 := { buf with recs := (t.used, ⟨coordinate, ⟨vdt, v⟩⟩) :: buf.recs }
    (none, { t with buffer := buf2, used := t.used + t.coordSize })

/-- The record stored at byte offset `off` (the most recent write there). -/
def recAt (recs : List (Nat × RecordT)) (off : Nat) : Option RecordT :=
  (recs.find? (fun e => e.1 = off)).map (·.2)

/-- The record stream of a buffer: the records at offsets
`0, cs, 2*cs, ...` below `used`, in insertion order. -/
def recordsOf (recs : List (Nat × RecordT)) (cs used : Nat) : List RecordT :=
  (List.range (used / cs)).filterMap fun k => recAt recs (k * cs)

/-! ### Modelled from the spec: the packer (§4.2; `tensor.cpp` is absent
from `src/`).  It maps each record's coordinates to physical-level order
through the mode ordering, resolves duplicate coordinates by keeping the
last write (the spec leaves the duplicate policy open, §9; this model
documents last-write-wins), sorts lexicographically, and builds the
per-level index arrays: a Dense level records only its extent, a
Compressed level gets a position array (running count of children per
parent) and a coordinate array.  The value array is emitted in the order
of the innermost coordinates.  Out-of-bounds coordinates (§4.2
`OutOfBounds`) are not modelled: no claim depends on them. -/

/-- Physical-level coordinate tuple of a record: level `i` holds the
coordinate of original dimension `modeOrdering[i]`. -/
def levelTuple (ordering : List Nat) (order : Nat) (coords : List Int) : List Nat :=
  (List.range order).map fun i => (coords.getD (ordering.getD i 0) 0).toNat

/-- Lexicographic comparison of coordinate tuples. -/
def lexLt : List Nat → List Nat → Bool
  | [], [] => false
  | [], _ :: _ => true
  | _ :: _, [] => false
  | a :: as, b :: bs => a < b || (a = b && lexLt as bs)

/-- Insert a keyed record, replacing the value at an existing key
(last write wins). -/
def upsert (acc : List (List Nat × TValT)) (kv : List Nat × TValT) :
    List (List Nat × TValT) :=
  if acc.any (fun e => e.1 = kv.1) then
    acc.map fun e => if e.1 = kv.1 then kv else e
  else acc ++ [kv]

/-- Insertion into a lexicographically sorted list. -/
def insSorted (x : List Nat × TValT) : List (List Nat × TValT) → List (List Nat × TValT)
  | [] => [x]
  | y :: ys => if lexLt x.1 y.1 then x :: y :: ys else y :: insSorted x ys

/-- Lexicographic insertion sort of keyed records. -/
def sortRecs (l : List (List Nat × TValT)) : List (List Nat × TValT) :=
  l.foldr insSorted []

/-- Adjacent deduplication of a sorted list. -/
def dedupAdj : List Nat → List Nat
  | [] => []
  | [a] => [a]
  | a :: b :: rest => if a = b then dedupAdj (b :: rest) else a :: dedupAdj (b :: rest)

/-- Position array from per-parent child counts: the running totals,
starting at 0. -/
def scanSizes (hs : List (List Nat)) : List Nat :=
  hs.foldl (fun acc h => acc ++ [acc.getLast?.getD 0 + h.length]) [0]

/-- The records of a bucket whose leading coordinate is `c`, with that
coordinate consumed. -/
def subBucket (c : Nat) (b : List (List Nat × TValT)) : List (List Nat × TValT) :=
  b.filterMap fun r =>
    match r.1 with
    | c0 :: cs => if c0 = c then some (cs, r.2) else none
    | [] => none

/-- Build the per-level Mode Indices from outermost to innermost.  The
buckets hold, for each parent position in the current level, its sorted
records with the consumed coordinates stripped. -/
def buildLevels : List (ModeTypeT × Nat) → List (List (List Nat × TValT)) →
    List ModeIndexT × List (List (List Nat × TValT))
  | [], buckets => ([], buckets)
  | (mt, e) :: rest, buckets =>
    match mt with
    | .Dense =>
      let newBuckets := buckets.flatMap fun b => (List.range e).map fun c => subBucket c b
      let (ls, fb) := buildLevels rest newBuckets
      (⟨[[e]]⟩ :: ls, fb)
    | .Sparse =>
      let heads := buckets.map fun b => dedupAdj (b.filterMap fun r => r.1.head?)
      let pos := scanSizes heads
      let crd := heads.flatMap id
      let newBuckets := (buckets.zip heads).flatMap fun bh => bh.2.map fun c => subBucket c bh.1
      let (ls, fb) := buildLevels rest newBuckets
      (⟨[pos, crd]⟩ :: ls, fb)
    | .Fixed =>
      let (ls, fb) := buildLevels rest buckets
      (⟨[]⟩ :: ls, fb)

/-- Modelled from the spec: `pack()` (§4.2) as a function from the
accumulated records to a packed Index and value array. -/
def specPack (order : Nat) (fmt : FormatT) (dims : List Nat) (recs : List RecordT) :
    IndexT × List TValT :=
  let tuples := recs.map fun r => (levelTuple fmt.modeOrdering order r.coords, r.val)
  let dedup := tuples.foldl upsert []
  let sorted := sortRecs dedup
  let extents := (List.range order).map fun i => dims.getD (fmt.modeOrdering.getD i 0) 0
  let built := buildLevels (fmt.modeTypes.zip extents) [sorted]
  let values := built.2.flatMap fun b => b.map (·.2)
  (⟨built.1, values.length⟩, values)

/-! ### The shared-handle model (tensor.h:231-238, §4.5): `Content` and
the coordinate buffer live behind `shared_ptr`s, so copies of a
`TensorBase` alias them, while `coordinateBufferUsed` and
`coordinateSize` are plain per-handle fields. -/

/-- Modelled from the spec: the `Content` block (`struct Content` is only
declared in tensor.h:232; §3 "TensorBase/Content" lists its fields):
name, dimensions, component type, format, and the packed storage once
`pack()` has run. -/
structure ContentT where
  name : String
  order : Nat
  dims : List Nat
  ctype : DataTypeT
  modeTypes : List ModeTypeT
  modeOrdering : List Nat
  storage : Option (IndexT × List TValT)
deriving DecidableEq

/-- The heap: the shared `Content` blocks and shared coordinate buffers,
keyed by their addresses. -/
structure StoreT where
  contents : List (Nat × ContentT)
  buffers : List (Nat × BufferT)
deriving DecidableEq

/-- A `TensorBase` value (tensor.h:233-237): the two shared pointers —
modelled as heap keys — and the two per-handle counters. -/
structure HandleT where
  cid : Nat
  bid : Nat
  used : Nat
  coordSize : Nat
deriving DecidableEq, Repr

/-- Copying a `TensorBase` (the implicit copy constructor / assignment):
all four fields are copied, so the heap keys are shared and the counters
are duplicated. -/
def copyH (h : HandleT) : HandleT := h

def lookupC (st : StoreT) (cid : Nat) : Option ContentT :=
  (st.contents.find? fun e => e.1 = cid).map (·.2)

def lookupB (st : StoreT) (bid : Nat) : Option BufferT :=
  (st.buffers.find? fun e => e.1 = bid).map (·.2)

def updateC (st : StoreT) (cid : Nat) (c : ContentT) : StoreT :=
  { st with contents := st.contents.map fun e => if e.1 = cid then (cid, c) else e }

def updateB (st : StoreT) (bid : Nat) (b : BufferT) : StoreT :=
  { st with buffers := st.buffers.map fun e => if e.1 = bid then (bid, b) else e }

/-- `TensorBase::insert` acting through a handle on the heap: the arity
and type checks read the shared `Content`; the record is appended to the
shared buffer at the handle's own `used` offset; only the acting handle's
`used` advances.  A dangling `cid` (impossible for handles created
through the constructors, which always allocate a `Content`) is a no-op. -/
def insertH (st : StoreT) (h : HandleT) (coordinate : List Int)
    (vdt : DataTypeT) (v : Int) : Option TacoErrT × StoreT × HandleT :=
  match lookupC st h.cid with
  | none => (none, st, h)
  | some c =>
    if coordinate.length ≠ c.order then (some .DimensionMismatch, st, h)
    else if c.ctype ≠ vdt then (some .TypeMismatch, st, h)
    else
      let buf := (lookupB st h.bid).getD ⟨0, []⟩
      let buf1 :=
        if buf.sizeBytes - h.used < h.coordSize then
          { buf with sizeBytes := buf.sizeBytes + h.coordSize }
        else buf
      let buf2 := { buf1 with recs := (h.used, ⟨coordinate, ⟨vdt, v⟩⟩) :: buf1.recs }
      (none, updateB st h.bid buf2, { h with used := h.used + h.coordSize })

/-- Modelled from the spec: `pack()` through a handle (§4.2): compiles
the buffer records into the `Content`'s storage and resets the handle's
buffer usage to zero. -/
def packH (st : StoreT) (h : HandleT) : StoreT × HandleT :=
  match lookupC st h.cid with
  | none => (st, h)
  | some c =>
    let buf := (lookupB st h.bid).getD ⟨0, []⟩
    let recs := recordsOf buf.recs h.coordSize h.used
    let stor := specPack c.order ⟨c.modeTypes, c.modeOrdering⟩ c.dims recs
    (updateC st h.cid { c with storage := some stor }, { h with used := 0 })

/-- The packed view of a `Content` for the traversal engine. -/
def toPacked (c : ContentT) (stor : IndexT × List TValT) : PackedTensorT TValT :=
  ⟨c.order, ⟨c.modeTypes, c.modeOrdering⟩, stor.1, stor.2⟩

/-- Zero value handed to the traversal for uninitialized reads. -/
def dfltVal : TValT := ⟨.i32, 0⟩

/-- A heap key not used in an association list. -/
def freshId (l : List (Nat × β)) : Nat :=
  (l.map (·.1)).foldr max 0 + 1

/-- The coordinate of the transposed tensor: entry `i` is the source
coordinate of original dimension `newModeOrdering[i]` (tensor.h:303-306). -/
def permCoord (ordering : List Nat) (coord : List Nat) : List Int :=
  ordering.map fun m => Int.ofNat (coord.getD m 0)

/-- The traversal items of the source, with coordinates permuted per the
new mode ordering — the insertion stream `transpose` feeds the new
tensor. -/
def permItems (ordering : List Nat) (items : List (List Nat × TValT)) :
    List (List Int × TValT) :=
  items.map fun pr => (permCoord ordering pr.1, pr.2)

/-- `Tensor::transpose(name, newModeOrdering, format)` (tensor.h:294-311)
through a handle on the heap: reorder the dimensions, allocate a fresh
tensor (new `Content`, new buffer), insert every traversal item of the
source with its coordinate permuted, pack the new tensor and return it.
The source cells are only read.  The traversal of the source is its
depth-first leaf enumeration `dfs`. -/
def transposeH (st : StoreT) (h : HandleT) (tname : String)
    (ordering : List Nat) (fmt : FormatT) : StoreT × HandleT :=
  match lookupC st h.cid with
  | none => (st, h)
  | some c =>
    match c.storage with
    | none => (st, h)
    | some stor =>
      let src := toPacked c stor
      let newDims := ordering.map fun m => c.dims.getD m 0
      let cid2 := freshId st.contents
      let bid2 := freshId st.buffers
      let newContent : ContentT :=
        { name := tname, order := newDims.length, dims := newDims, ctype := c.ctype
        , modeTypes := fmt.modeTypes, modeOrdering := fmt.modeOrdering, storage := none }
      let st1 : StoreT :=
        { contents := (cid2, newContent) :: st.contents
        , buffers := (bid2, ⟨0, []⟩) :: st.buffers }
      let h1 : HandleT :=
        { cid := cid2, bid := bid2, used := 0
        , coordSize := 4 * newDims.length + dtSize c.ctype }
      let items := permItems ordering (dfsAll src dfltVal)
      let folded := items.foldl
        (fun (acc : StoreT × HandleT) (pr : List Int × TValT) =>
          let r := insertH acc.1 acc.2 pr.1 pr.2.dt pr.2.bits
          (r.2.1, r.2.2))
        (st1, h1)
      packH folded.1 folded.2

/-- The reversed-prepend record list a run of `k` inserts of `items`
leaves in a fresh buffer, starting at offset `off` with record size `cs`. -/
def seedList (cs : Nat) : List (List Int × TValT) → Nat → List (Nat × RecordT)
  | [], _ => []
  | pr :: rest, off => (off, ⟨pr.1, pr.2⟩) :: seedList cs rest (off + cs)

/-! ### CSR factory and accessor (tensor.h:534-544, 562-577) -/

/-- Modelled from the spec: the ownership tag of a storage array (§4.3;
`taco/storage/array.h` is absent from `src/`). -/
inductive OwnershipT
  | UserOwns
  | LibraryOwns
deriving DecidableEq, Repr

/-- An index array: its integer data and its ownership tag. -/
structure ArrayI where
  data : List Int
  owner : OwnershipT
deriving DecidableEq, Repr

/-- A value array over components of type `α`. -/
structure ArrayV (α : Type) where
  data : List α
  owner : OwnershipT
deriving DecidableEq, Repr

/-- A Mode Index over typed arrays. -/
structure ModeIndexA where
  arrays : List ArrayI
deriving DecidableEq, Repr

/-- A tensor Index over typed arrays, with its stored-entry count. -/
structure IndexA where
  modeIndices : List ModeIndexA
  size : Nat
deriving DecidableEq, Repr

/-- The CSR format: Dense rows then Compressed columns, identity mode
ordering. -/
def CSRfmt : FormatT :=
  ⟨[.Dense, .Sparse], [0, 1]⟩

/-- A tensor as the CSR factory functions see it. -/
structure TensorA (α : Type) where
  name : String
  dims : List Nat
  format : FormatT
  index : IndexA
  values : ArrayV α
deriving DecidableEq

/-- Modelled from the spec: `storage::makeCSRIndex(rows, rowptr, colidx)`
(`taco/storage/index.h` is absent from `src/`; §6, §3): a Dense outer
level sized by `rows` and a Compressed inner level wrapping the caller's
position and coordinate arrays without copying; `getSize` is the last
entry of the position array. -/
def makeCSRIndexA (rows : Nat) (rowptr colidx : List Int) : IndexA :=
  { modeIndices :=
      [ ⟨[⟨[Int.ofNat rows], .LibraryOwns⟩]⟩
      , ⟨[⟨rowptr, .UserOwns⟩, ⟨colidx, .UserOwns⟩]⟩ ]
  , size := (rowptr.getD rows 0).toNat }

/-- `makeCSR(name, dimensions, rowptr, colidx, vals)` (tensor.h:534-544):
build a CSR tensor whose Index wraps the caller-owned arrays and whose
value array is the caller's `vals` tagged `UserOwns`.  The
`taco_uassert(dimensions.size() == 2)` is a precondition of the theorems. -/
def makeCSRT (name : String) (dims : List Nat) (rowptr colidx : List Int)
    (vals : List α) : TensorA α :=
  let index := makeCSRIndexA (dims.getD 0 0) rowptr colidx
  { name := name, dims := dims, format := CSRfmt, index := index
  , values := ⟨vals, .UserOwns⟩ }

/-- `getCSRArrays(tensor, &rowptr, &colidx, &vals)` (tensor.h:562-577):
after the CSR format check, return mode 1's index array 0 (positions),
mode 1's index array 1 (coordinates) and the value array, without copying
or changing ownership.  The format `taco_uassert` is modelled as `none`. -/
def getCSRArraysT (t : TensorA α) : Option (List Int × List Int × List α) :=
  if t.format = CSRfmt then
    some (((t.index.modeIndices.getD 1 ⟨[]⟩).arrays.getD 0 ⟨[], .LibraryOwns⟩).data,
          ((t.index.modeIndices.getD 1 ⟨[]⟩).arrays.getD 1 ⟨[], .LibraryOwns⟩).data,
          t.values.data)
  else none

/-! ### The scalar-constructor pipeline (tensor.h:42-46) -/

/-- Modelled from the spec: the scalar `TensorBase(DataType)` constructor
(`tensor.cpp` is absent from `src/`): an order-0 tensor with an empty
fresh coordinate buffer; one record holds just the value bytes. -/
def scalarTB (dt : DataTypeT) : TBaseT :=
  { order := 0, ctype := dt, dims := [], coordSize := dtSize dt
  , buffer := ⟨0, []⟩, used := 0 }

/-- `TensorBase(T val)` (tensor.h:42-46): create a scalar, `insert({}, val)`,
then `pack()`; the result viewed as a packed tensor for traversal. -/
def scalarPacked (v : Int) : PackedTensorT TValT :=
  let t1 := (insertTB (scalarTB .i32) [] .i32 v).2
  let recs := recordsOf t1.buffer.recs t1.coordSize t1.used
  let stor := specPack 0 ⟨[], []⟩ [] recs
  ⟨0, ⟨[], []⟩, stor.1, stor.2⟩

/-! ### Concrete instances used by witnesses and counterexamples -/

/-- The §8 mixed-format example: a 3×3 matrix, Dense rows over Compressed
columns, holding (0,0)=1, (0,2)=2, (2,1)=3. -/
def exMixed : PackedTensorT Int :=
  { order := 2
  , format := { modeTypes := [.Dense, .Sparse], modeOrdering := [0, 1] }
  , index := { modeIndices := [⟨[[3]]⟩, ⟨[[0, 2, 2, 3], [0, 2, 1]]⟩], size := 3 }
  , vals := [1, 2, 3] }

/-- A tensor whose second level carries an unimplemented mode type. -/
def exFixed : PackedTensorT Int :=
  { order := 2
  , format := { modeTypes := [.Dense, .Fixed], modeOrdering := [0, 1] }
  , index := { modeIndices := [⟨[[2]]⟩, ⟨[]⟩], size := 0 }
  , vals := [] }

/-- An order-3 int tensor whose 32-byte coordinate buffer is full: the
next insert must grow it. -/
def cex8 : TBaseT :=
  { order := 3, ctype := .i32, dims := [5, 5, 5], coordSize := 16
  , buffer := ⟨32, []⟩, used := 32 }

/-- A 1-D sparse int content block at heap address 0. -/
def c5 : ContentT :=
  { name := "a", order := 1, dims := [3], ctype := .i32
  , modeTypes := [.Sparse], modeOrdering := [0], storage := none }

/-- A one-tensor heap: content 0 and an empty buffer 0. -/
def st5 : StoreT := ⟨[(0, c5)], [(0, ⟨0, []⟩)]⟩

/-- The handle over `c5`. -/
def h5 : HandleT := ⟨0, 0, 0, 8⟩

/-- The content block of `exMixed` for the transpose example. -/
def c6 : ContentT :=
  { name := "A", order := 2, dims := [3, 3], ctype := .i32
  , modeTypes := [.Dense, .Sparse], modeOrdering := [0, 1]
  , storage := some (⟨[⟨[[3]]⟩, ⟨[[0, 2, 2, 3], [0, 2, 1]]⟩], 3⟩,
      [⟨.i32, 1⟩, ⟨.i32, 2⟩, ⟨.i32, 3⟩]) }

/-- A one-tensor heap holding `c6`. -/
def st6 : StoreT := ⟨[(0, c6)], [(0, ⟨0, []⟩)]⟩

/-- The handle over `c6`. -/
def h6 : HandleT := ⟨0, 0, 0, 12⟩

end Taco

namespace Taco

/-! ## Theorems -/

/-! ### List helpers -/

theorem lget_default (l : List Nat) (i : Nat) (h : l.length ≤ i) : lget l i = 0 := by
  unfold lget
  exact List.getD_eq_default _ _ h

theorem lget_set_self (l : List Nat) (i v : Nat) (h : i < l.length) :
    lget (l.set i v) i = v := by
  unfold lget
  rw [List.getD_eq_getElem _ _ (by simpa using h)]
  exact List.getElem_set_self _

theorem lget_set_ne (l : List Nat) (i j v : Nat) (h : i ≠ j) :
    lget (l.set i v) j = lget l j := by
  by_cases hj : j < l.length
  · unfold lget
    rw [List.getD_eq_getElem _ _ (by simpa using hj), List.getD_eq_getElem _ _ hj]
    exact List.getElem_set_ne h _
  · rw [lget_default _ _ (by simp; omega), lget_default _ _ (by omega)]

theorem lget_set_cases (l : List Nat) (i v : Nat) :
    lget (l.set i v) i = if i < l.length then v else 0 := by
  by_cases h : i < l.length
  · rw [if_pos h, lget_set_self _ _ _ h]
  · rw [if_neg h, lget_default _ _ (by simp; omega)]

theorem lget_take (l : List Nat) (n i : Nat) (h : i < n) : lget (l.take n) i = lget l i := by
  by_cases hl : i < l.length
  · unfold lget
    rw [List.getD_eq_getElem _ _ (by simp; omega), List.getD_eq_getElem _ _ hl]
    exact List.getElem_take _
  · rw [lget_default _ _ (by simp; omega), lget_default _ _ (by omega)]

theorem take_set_gt (l : List Nat) (i v n : Nat) (h : n ≤ i) :
    (l.set i v).take n = l.take n := by
  apply List.ext_getElem (by simp)
  intro j h1 h2
  have hj : j < n := by simp [List.length_take] at h1; omega
  simp only [List.getElem_take]
  exact List.getElem_set_ne (by omega) _

theorem take_set_succ (l : List Nat) (i v : Nat) (h : i < l.length) :
    (l.set i v).take (i + 1) = l.take i ++ [v] := by
  rw [List.take_succ, take_set_gt _ _ _ _ (le_refl i)]
  rw [List.getElem?_eq_getElem (by simpa using h)]
  rw [List.getElem_set_self]
  rfl

theorem take_eq_of_lget (l l2 : List Nat) (n : Nat) (hlen : l2.length = l.length)
    (h : ∀ i, i < n → lget l2 i = lget l i) : l2.take n = l.take n := by
  apply List.ext_getElem (by simp [hlen])
  intro j h1 h2
  have hj : j < l2.length := by simp at h1; omega
  have hj2 : j < l.length := by simp at h2; omega
  have := h j (by simp at h1; omega)
  unfold lget at this
  rw [List.getD_eq_getElem _ _ hj, List.getD_eq_getElem _ _ hj2] at this
  simpa [List.getElem_take] using this

/-! ### `frameLe` algebra -/

theorem frameLe_refl (lvl : Nat) (s : IterState α) : frameLe lvl s s :=
  fun _ _ => ⟨rfl, rfl⟩

theorem frameLe_trans {lvl : Nat} {s1 s2 s3 : IterState α}
    (h1 : frameLe lvl s1 s2) (h2 : frameLe lvl s2 s3) : frameLe lvl s1 s3 :=
  fun i hi => ⟨((h2 i hi).1).trans ((h1 i hi).1), ((h2 i hi).2).trans ((h1 i hi).2)⟩

theorem frameLe_mono {lvl lvl2 : Nat} {s s2 : IterState α} (h : lvl ≤ lvl2)
    (hf : frameLe lvl2 s s2) : frameLe lvl s s2 :=
  fun i hi => hf i (by omega)

/-! ### `permAssign` lemmas -/

theorem permAssign_zero (o c cur : List Nat) : permAssign o c cur 0 = cur := rfl

theorem permAssign_succ (o c cur : List Nat) (n : Nat) :
    permAssign o c cur (n + 1) = (permAssign o c cur n).set (o.getD n 0) (c.getD n 0) := by
  unfold permAssign
  rw [List.range_succ, List.foldl_append]
  rfl

theorem permAssign_length (o c cur : List Nat) (n : Nat) :
    (permAssign o c cur n).length = cur.length := by
  induction n with
  | zero => rfl
  | succ n ih => rw [permAssign_succ, List.length_set, ih]

theorem permAssign_lget_indep (o c cur cur2 : List Nat) (n j : Nat)
    (hlen : cur.length = cur2.length) (hcov : ∃ i, i < n ∧ o.getD i 0 = j) :
    lget (permAssign o c cur n) j = lget (permAssign o c cur2 n) j := by
  induction n with
  | zero => omega
  | succ n ih =>
    rw [permAssign_succ, permAssign_succ]
    by_cases hj : o.getD n 0 = j
    · rw [hj, lget_set_cases, lget_set_cases, permAssign_length, permAssign_length, hlen]
    · rw [lget_set_ne _ _ _ _ hj, lget_set_ne _ _ _ _ hj]
      apply ih
      obtain ⟨i, hi, hoi⟩ := hcov
      exact ⟨i, by rcases Nat.lt_succ_iff_lt_or_eq.mp hi with h | h
                   · exact h
                   · exact absurd (h ▸ hoi) hj, hoi⟩

theorem perm_covers {o : List Nat} {n : Nat} (hperm : o.Perm (List.range n)) :
    ∀ j, j < n → ∃ i, i < n ∧ o.getD i 0 = j := by
  intro j hj
  have hmem : j ∈ o := hperm.mem_iff.mpr (List.mem_range.mpr hj)
  obtain ⟨i, hi, heq⟩ := List.mem_iff_getElem.mp hmem
  have hlen : o.length = n := by simpa using hperm.length_eq
  exact ⟨i, by omega, by rw [List.getD_eq_getElem _ _ hi]; exact heq⟩

theorem permAssign_init_indep (o c cur cur2 : List Nat) (n : Nat)
    (hperm : o.Perm (List.range n)) (h1 : cur.length = n) (h2 : cur2.length = n) :
    permAssign o c cur n = permAssign o c cur2 n := by
  apply List.ext_getElem (by rw [permAssign_length, permAssign_length, h1, h2])
  intro j hj1 hj2
  have hjn : j < n := by rwa [permAssign_length, h1] at hj1
  have := permAssign_lget_indep o c cur cur2 n j (h1.trans h2.symm) (perm_covers hperm j hjn)
  unfold lget at this
  rwa [List.getD_eq_getElem _ _ hj1, List.getD_eq_getElem _ _ hj2] at this

/-! ### Branch unfolding lemmas for `adv`, `advDense`, `advSparse`, `dfs` -/

theorem advDense_stop (next : IterState α → Except Nat (Bool × IterState α))
    (lvl size base c : Nat) (s : IterState α) (h : ¬ c < size) :
    advDense next lvl size base c s = .ok (false, { s with coord := s.coord.set lvl c }) := by
  rw [advDense]
  simp [h]

theorem advDense_go (next : IterState α → Except Nat (Bool × IterState α))
    (lvl size base c : Nat) (s : IterState α) (h : c < size) :
    advDense next lvl size base c s =
      match next { s with coord := s.coord.set lvl c, ptrs := s.ptrs.set lvl (base + c) } with
      | .ok (true, s2) => .ok (true, s2)
      | .ok (false, s2) => advDense next lvl size base (c + 1) s2
      | .error e => .error e := by
  rw [advDense]
  simp [h]

theorem advSparse_stop (next : IterState α → Except Nat (Bool × IterState α))
    (lvl : Nat) (idxA : List Nat) (pend p : Nat) (s : IterState α) (h : ¬ p < pend) :
    advSparse next lvl idxA pend p s = .ok (false, { s with ptrs := s.ptrs.set lvl p }) := by
  rw [advSparse]
  simp [h]

theorem advSparse_go (next : IterState α → Except Nat (Bool × IterState α))
    (lvl : Nat) (idxA : List Nat) (pend p : Nat) (s : IterState α) (h : p < pend) :
    advSparse next lvl idxA pend p s =
      match next { s with ptrs := s.ptrs.set lvl p, coord := s.coord.set lvl (lget idxA p) } with
      | .ok (true, s2) => .ok (true, s2)
      | .ok (false, s2) => advSparse next lvl idxA pend (p + 1) s2
      | .error e => .error e := by
  rw [advSparse]
  simp [h]

theorem adv_leaf_fresh (t : PackedTensorT α) (dflt : α) (lvl : Nat) (s : IterState α)
    (h : s.advance = false) :
    adv t dflt 0 lvl s = .ok (true,
      { s with curVal := (permAssign t.format.modeOrdering s.coord s.curVal.1 lvl,
                          t.vals.getD (parentOf lvl s) dflt)
             , advance := true }) := by
  simp [adv, h, parentOf]

theorem adv_leaf_resume (t : PackedTensorT α) (dflt : α) (lvl : Nat) (s : IterState α)
    (h : s.advance = true) :
    adv t dflt 0 lvl s = .ok (false, { s with advance := false }) := by
  simp [adv, h]

theorem adv_dense_fresh (t : PackedTensorT α) (dflt : α) (rem lvl : Nat) (s : IterState α)
    (hmt : mtAt t lvl = .Dense) (h : s.advance = false) :
    adv t dflt (rem + 1) lvl s =
      advDense (adv t dflt rem (lvl + 1)) lvl (lget (miArr t lvl 0) 0)
        (if lvl = 0 then 0 else lget s.ptrs (denseBaseIdx lvl) * lget (miArr t lvl 0) 0)
        0 s := by
  simp [adv, hmt, h]

theorem adv_dense_resume (t : PackedTensorT α) (dflt : α) (rem lvl : Nat) (s : IterState α)
    (hmt : mtAt t lvl = .Dense) (h : s.advance = true) :
    adv t dflt (rem + 1) lvl s =
      match adv t dflt rem (lvl + 1) s with
      | .ok (true, s2) => .ok (true, s2)
      | .ok (false, s2) =>
        advDense (adv t dflt rem (lvl + 1)) lvl (lget (miArr t lvl 0) 0)
          (if lvl = 0 then 0 else lget s.ptrs (denseBaseIdx lvl) * lget (miArr t lvl 0) 0)
          (lget s2.coord lvl + 1) s2
      | .error e => .error e := by
  simp [adv, hmt, h]

theorem adv_sparse_fresh (t : PackedTensorT α) (dflt : α) (rem lvl : Nat) (s : IterState α)
    (hmt : mtAt t lvl = .Sparse) (h : s.advance = false) :
    adv t dflt (rem + 1) lvl s =
      advSparse (adv t dflt rem (lvl + 1)) lvl (miArr t lvl 1)
        (lget (miArr t lvl 0) (parentOf lvl s + 1))
        (lget (miArr t lvl 0) (parentOf lvl s)) s := by
  simp [adv, hmt, h, parentOf]

theorem adv_sparse_resume (t : PackedTensorT α) (dflt : α) (rem lvl : Nat) (s : IterState α)
    (hmt : mtAt t lvl = .Sparse) (h : s.advance = true) :
    adv t dflt (rem + 1) lvl s =
      match adv t dflt rem (lvl + 1) s with
      | .ok (true, s2) => .ok (true, s2)
      | .ok (false, s2) =>
        advSparse (adv t dflt rem (lvl + 1)) lvl (miArr t lvl 1)
          (lget (miArr t lvl 0) (parentOf lvl s + 1))
          (lget s2.ptrs lvl + 1) s2
      | .error e => .error e := by
  simp [adv, hmt, h, parentOf]

theorem adv_fixed (t : PackedTensorT α) (dflt : α) (rem lvl : Nat) (s : IterState α)
    (hmt : mtAt t lvl = .Fixed) :
    adv t dflt (rem + 1) lvl s = .error lvl := by
  simp [adv, hmt]

theorem dfs_dense (t : PackedTensorT α) (dflt : α) (rem lvl parent : Nat) (path : List Nat)
    (hmt : mtAt t lvl = .Dense) :
    dfs t dflt (rem + 1) lvl parent path =
      (List.range (lget (miArr t lvl 0) 0)).flatMap fun c =>
        dfs t dflt rem (lvl + 1)
          ((if lvl = 0 then 0 else parent * lget (miArr t lvl 0) 0) + c) (path ++ [c]) := by
  simp [dfs, hmt]

theorem dfs_sparse (t : PackedTensorT α) (dflt : α) (rem lvl parent : Nat) (path : List Nat)
    (hmt : mtAt t lvl = .Sparse) :
    dfs t dflt (rem + 1) lvl parent path =
      (List.range' (lget (miArr t lvl 0) (if lvl = 0 then 0 else parent))
        (lget (miArr t lvl 0) ((if lvl = 0 then 0 else parent) + 1) -
         lget (miArr t lvl 0) (if lvl = 0 then 0 else parent))).flatMap fun p =>
        dfs t dflt rem (lvl + 1) p (path ++ [lget (miArr t lvl 1) p]) := by
  simp [dfs, hmt]

/-! ### Flag, frame and error invariants of `advanceIndex` -/

theorem advDense_flag {α : Type} {next : IterState α → Except Nat (Bool × IterState α)}
    (hnext : ∀ s (b : Bool) s2, next s = .ok (b, s2) → s2.advance = b)
    (lvl size base : Nat) :
    ∀ n c s (b : Bool) s2, size - c ≤ n → s.advance = false →
      advDense next lvl size base c s = .ok (b, s2) → s2.advance = b := by
  intro n
  induction n with
  | zero =>
    intro c s b s2 hn hs heq
    rw [advDense_stop _ _ _ _ _ _ (by omega)] at heq
    simp only [Except.ok.injEq, Prod.mk.injEq] at heq
    rw [← heq.2, ← heq.1]
    exact hs
  | succ n ih =>
    intro c s b s2 hn hs heq
    by_cases hc : c < size
    · rw [advDense_go _ _ _ _ _ _ hc] at heq
      rcases hnx : next { s with coord := s.coord.set lvl c, ptrs := s.ptrs.set lvl (base + c) } with
        e9 | r
      · rw [hnx] at heq
        simp at heq
      · rcases r with ⟨b1, s3⟩
        rw [hnx] at heq
        cases b1
        · exact ih (c + 1) s3 b s2 (by omega) (hnext _ _ _ hnx) heq
        · simp only [Except.ok.injEq, Prod.mk.injEq] at heq
          rw [← heq.2, ← heq.1]
          exact hnext _ _ _ hnx
    · rw [advDense_stop _ _ _ _ _ _ hc] at heq
      simp only [Except.ok.injEq, Prod.mk.injEq] at heq
      rw [← heq.2, ← heq.1]
      exact hs

theorem advSparse_flag {α : Type} {next : IterState α → Except Nat (Bool × IterState α)}
    (hnext : ∀ s (b : Bool) s2, next s = .ok (b, s2) → s2.advance = b)
    (lvl : Nat) (idxA : List Nat) (pend : Nat) :
    ∀ n p s (b : Bool) s2, pend - p ≤ n → s.advance = false →
      advSparse next lvl idxA pend p s = .ok (b, s2) → s2.advance = b := by
  intro n
  induction n with
  | zero =>
    intro p s b s2 hn hs heq
    rw [advSparse_stop _ _ _ _ _ _ (by omega)] at heq
    simp only [Except.ok.injEq, Prod.mk.injEq] at heq
    rw [← heq.2, ← heq.1]
    exact hs
  | succ n ih =>
    intro p s b s2 hn hs heq
    by_cases hp : p < pend
    · rw [advSparse_go _ _ _ _ _ _ hp] at heq
      rcases hnx : next { s with ptrs := s.ptrs.set lvl p, coord := s.coord.set lvl (lget idxA p) } with
        e9 | r
      · rw [hnx] at heq
        simp at heq
      · rcases r with ⟨b1, s3⟩
        rw [hnx] at heq
        cases b1
        · exact ih (p + 1) s3 b s2 (by omega) (hnext _ _ _ hnx) heq
        · simp only [Except.ok.injEq, Prod.mk.injEq] at heq
          rw [← heq.2, ← heq.1]
          exact hnext _ _ _ hnx
    · rw [advSparse_stop _ _ _ _ _ _ hp] at heq
      simp only [Except.ok.injEq, Prod.mk.injEq] at heq
      rw [← heq.2, ← heq.1]
      exact hs

theorem adv_flag (t : PackedTensorT α) (dflt : α) :
    ∀ rem lvl s (b : Bool) s2, adv t dflt rem lvl s = .ok (b, s2) → s2.advance = b := by
  intro rem
  induction rem with
  | zero =>
    intro lvl s b s2 heq
    rcases hs : s.advance
    · rw [adv_leaf_fresh _ _ _ _ hs] at heq
      simp only [Except.ok.injEq, Prod.mk.injEq] at heq
      rw [← heq.2, ← heq.1]
    · rw [adv_leaf_resume _ _ _ _ hs] at heq
      simp only [Except.ok.injEq, Prod.mk.injEq] at heq
      rw [← heq.2, ← heq.1]
  | succ rem ih =>
    intro lvl s b s2 heq
    rcases hmt : mtAt t lvl with _ | _ | _
    · rcases hs : s.advance
      · rw [adv_dense_fresh _ _ _ _ _ hmt hs] at heq
        exact advDense_flag (fun s b s2 h => ih (lvl + 1) s b s2 h) _ _ _
          (lget (miArr t lvl 0) 0) 0 s b s2 (by omega) hs heq
      · rw [adv_dense_resume _ _ _ _ _ hmt hs] at heq
        rcases hnx : adv t dflt rem (lvl + 1) s with e9 | r
        · rw [hnx] at heq
          simp at heq
        · rcases r with ⟨b1, s3⟩
          rw [hnx] at heq
          cases b1
          · exact advDense_flag (fun s b s2 h => ih (lvl + 1) s b s2 h) _ _ _
              (lget (miArr t lvl 0) 0) _ s3 b s2 (by omega) (ih _ _ _ _ hnx) heq
          · simp only [Except.ok.injEq, Prod.mk.injEq] at heq
            rw [← heq.2, ← heq.1]
            exact ih _ _ _ _ hnx
    · rcases hs : s.advance
      · rw [adv_sparse_fresh _ _ _ _ _ hmt hs] at heq
        exact advSparse_flag (fun s b s2 h => ih (lvl + 1) s b s2 h) _ _ _
          (lget (miArr t lvl 0) (parentOf lvl s + 1)) _ s b s2 (by omega) hs heq
      · rw [adv_sparse_resume _ _ _ _ _ hmt hs] at heq
        rcases hnx : adv t dflt rem (lvl + 1) s with e9 | r
        · rw [hnx] at heq
          simp at heq
        · rcases r with ⟨b1, s3⟩
          rw [hnx] at heq
          cases b1
          · exact advSparse_flag (fun s b s2 h => ih (lvl + 1) s b s2 h) _ _ _
              (lget (miArr t lvl 0) (parentOf lvl s + 1)) _ s3 b s2 (by omega)
              (ih _ _ _ _ hnx) heq
          · simp only [Except.ok.injEq, Prod.mk.injEq] at heq
            rw [← heq.2, ← heq.1]
            exact ih _ _ _ _ hnx
    · rw [adv_fixed _ _ _ _ _ hmt] at heq
      simp at heq

theorem framePr_refl (lvl : Nat) (s : IterState α) : framePr lvl s s :=
  ⟨rfl, rfl, rfl, frameLe_refl lvl s⟩

theorem framePr_trans {lvl : Nat} {s1 s2 s3 : IterState α}
    (h1 : framePr lvl s1 s2) (h2 : framePr lvl s2 s3) : framePr lvl s1 s3 :=
  ⟨h2.1.trans h1.1, h2.2.1.trans h1.2.1, h2.2.2.1.trans h1.2.2.1,
   frameLe_trans h1.2.2.2 h2.2.2.2⟩

theorem framePr_mono {lvl lvl2 : Nat} {s s2 : IterState α} (h : lvl ≤ lvl2)
    (hf : framePr lvl2 s s2) : framePr lvl s s2 :=
  ⟨hf.1, hf.2.1, hf.2.2.1, frameLe_mono h hf.2.2.2⟩

theorem framePr_set_coord (lvl c : Nat) (s : IterState α) :
    framePr lvl s { s with coord := s.coord.set lvl c } :=
  ⟨by simp, rfl, rfl, fun i hi => ⟨lget_set_ne _ _ _ _ (by omega), rfl⟩⟩

theorem framePr_set_both (lvl c v : Nat) (s : IterState α) :
    framePr lvl s { s with coord := s.coord.set lvl c, ptrs := s.ptrs.set lvl v } :=
  ⟨by simp, by simp, rfl,
   fun i hi => ⟨lget_set_ne _ _ _ _ (by omega), lget_set_ne _ _ _ _ (by omega)⟩⟩

theorem framePr_set_ptrs (lvl v : Nat) (s : IterState α) :
    framePr lvl s { s with ptrs := s.ptrs.set lvl v } :=
  ⟨rfl, by simp, rfl, fun i hi => ⟨rfl, lget_set_ne _ _ _ _ (by omega)⟩⟩

theorem advDense_frame {α : Type} {next : IterState α → Except Nat (Bool × IterState α)}
    {lvl : Nat} (hnext : ∀ s (b : Bool) s2, next s = .ok (b, s2) → framePr (lvl + 1) s s2)
    (size base : Nat) :
    ∀ n c s (b : Bool) s2, size - c ≤ n →
      advDense next lvl size base c s = .ok (b, s2) → framePr lvl s s2 := by
  intro n
  induction n with
  | zero =>
    intro c s b s2 hn heq
    rw [advDense_stop _ _ _ _ _ _ (by omega)] at heq
    simp only [Except.ok.injEq, Prod.mk.injEq] at heq
    rw [← heq.2]
    exact framePr_set_coord lvl c s
  | succ n ih =>
    intro c s b s2 hn heq
    by_cases hc : c < size
    · rw [advDense_go _ _ _ _ _ _ hc] at heq
      rcases hnx : next { s with coord := s.coord.set lvl c, ptrs := s.ptrs.set lvl (base + c) } with
        e9 | r
      · rw [hnx] at heq
        simp at heq
      · rcases r with ⟨b1, s3⟩
        rw [hnx] at heq
        have hstep : framePr lvl s s3 :=
          framePr_trans (framePr_set_both lvl c (base + c) s)
            (framePr_mono (by omega) (hnext _ _ _ hnx))
        cases b1
        · exact framePr_trans hstep (ih (c + 1) s3 b s2 (by omega) heq)
        · simp only [Except.ok.injEq, Prod.mk.injEq] at heq
          rw [← heq.2]
          exact hstep
    · rw [advDense_stop _ _ _ _ _ _ hc] at heq
      simp only [Except.ok.injEq, Prod.mk.injEq] at heq
      rw [← heq.2]
      exact framePr_set_coord lvl c s

theorem advSparse_frame {α : Type} {next : IterState α → Except Nat (Bool × IterState α)}
    {lvl : Nat} (hnext : ∀ s (b : Bool) s2, next s = .ok (b, s2) → framePr (lvl + 1) s s2)
    (idxA : List Nat) (pend : Nat) :
    ∀ n p s (b : Bool) s2, pend - p ≤ n →
      advSparse next lvl idxA pend p s = .ok (b, s2) → framePr lvl s s2 := by
  intro n
  induction n with
  | zero =>
    intro p s b s2 hn heq
    rw [advSparse_stop _ _ _ _ _ _ (by omega)] at heq
    simp only [Except.ok.injEq, Prod.mk.injEq] at heq
    rw [← heq.2]
    exact framePr_set_ptrs lvl p s
  | succ n ih =>
    intro p s b s2 hn heq
    by_cases hp : p < pend
    · rw [advSparse_go _ _ _ _ _ _ hp] at heq
      rcases hnx : next { s with ptrs := s.ptrs.set lvl p, coord := s.coord.set lvl (lget idxA p) } with
        e9 | r
      · rw [hnx] at heq
        simp at heq
      · rcases r with ⟨b1, s3⟩
        rw [hnx] at heq
        have hstep : framePr lvl s s3 := by
          refine framePr_trans ?_ (framePr_mono (by omega) (hnext _ _ _ hnx))
          exact ⟨by simp, by simp,  rfl,
            fun i hi => ⟨lget_set_ne _ _ _ _ (by omega), lget_set_ne _ _ _ _ (by omega)⟩⟩
        cases b1
        · exact framePr_trans hstep (ih (p + 1) s3 b s2 (by omega) heq)
        · simp only [Except.ok.injEq, Prod.mk.injEq] at heq
          rw [← heq.2]
          exact hstep
    · rw [advSparse_stop _ _ _ _ _ _ hp] at heq
      simp only [Except.ok.injEq, Prod.mk.injEq] at heq
      rw [← heq.2]
      exact framePr_set_ptrs lvl p s

theorem adv_frame (t : PackedTensorT α) (dflt : α) :
    ∀ rem lvl s (b : Bool) s2, adv t dflt rem lvl s = .ok (b, s2) → framePr lvl s s2 := by
  intro rem
  induction rem with
  | zero =>
    intro lvl s b s2 heq
    rcases hs : s.advance
    · rw [adv_leaf_fresh _ _ _ _ hs] at heq
      simp only [Except.ok.injEq, Prod.mk.injEq] at heq
      rw [← heq.2]
      exact ⟨rfl, rfl, by simp [permAssign_length], frameLe_refl _ _⟩
    · rw [adv_leaf_resume _ _ _ _ hs] at heq
      simp only [Except.ok.injEq, Prod.mk.injEq] at heq
      rw [← heq.2]
      exact ⟨rfl, rfl, rfl, frameLe_refl _ _⟩
  | succ rem ih =>
    intro lvl s b s2 heq
    rcases hmt : mtAt t lvl with _ | _ | _
    · rcases hs : s.advance
      · rw [adv_dense_fresh _ _ _ _ _ hmt hs] at heq
        exact advDense_frame (fun s b s2 h => ih (lvl + 1) s b s2 h) _ _
          (lget (miArr t lvl 0) 0) 0 s b s2 (by omega) heq
      · rw [adv_dense_resume _ _ _ _ _ hmt hs] at heq
        rcases hnx : adv t dflt rem (lvl + 1) s with e9 | r
        · rw [hnx] at heq
          simp at heq
        · rcases r with ⟨b1, s3⟩
          rw [hnx] at heq
          have hstep : framePr lvl s s3 := framePr_mono (by omega) (ih _ _ _ _ hnx)
          cases b1
          · exact framePr_trans hstep
              (advDense_frame (fun s b s2 h => ih (lvl + 1) s b s2 h) _ _
                (lget (miArr t lvl 0) 0) _ s3 b s2 (by omega) heq)
          · simp only [Except.ok.injEq, Prod.mk.injEq] at heq
            rw [← heq.2]
            exact hstep
    · rcases hs : s.advance
      · rw [adv_sparse_fresh _ _ _ _ _ hmt hs] at heq
        exact advSparse_frame (fun s b s2 h => ih (lvl + 1) s b s2 h) _ _
          (lget (miArr t lvl 0) (parentOf lvl s + 1)) _ s b s2 (by omega) heq
      · rw [adv_sparse_resume _ _ _ _ _ hmt hs] at heq
        rcases hnx : adv t dflt rem (lvl + 1) s with e9 | r
        · rw [hnx] at heq
          simp at heq
        · rcases r with ⟨b1, s3⟩
          rw [hnx] at heq
          have hstep : framePr lvl s s3 := framePr_mono (by omega) (ih _ _ _ _ hnx)
          cases b1
          · exact framePr_trans hstep
              (advSparse_frame (fun s b s2 h => ih (lvl + 1) s b s2 h) _ _
                (lget (miArr t lvl 0) (parentOf lvl s + 1)) _ s3 b s2 (by omega) heq)
          · simp only [Except.ok.injEq, Prod.mk.injEq] at heq
            rw [← heq.2]
            exact hstep
    · rw [adv_fixed _ _ _ _ _ hmt] at heq
      simp at heq

theorem advDense_err {α : Type} {next : IterState α → Except Nat (Bool × IterState α)}
    {P : Nat → Prop} (hnext : ∀ s e, next s = .error e → P e)
    (lvl size base : Nat) :
    ∀ n c s e, size - c ≤ n → advDense next lvl size base c s = .error e → P e := by
  intro n
  induction n with
  | zero =>
    intro c s e hn heq
    rw [advDense_stop _ _ _ _ _ _ (by omega)] at heq
    simp at heq
  | succ n ih =>
    intro c s e hn heq
    by_cases hc : c < size
    · rw [advDense_go _ _ _ _ _ _ hc] at heq
      rcases hnx : next { s with coord := s.coord.set lvl c, ptrs := s.ptrs.set lvl (base + c) } with
        e9 | r
      · rw [hnx] at heq
        simp only [Except.error.injEq] at heq
        exact heq ▸ hnext _ _ hnx
      · rcases r with ⟨b1, s3⟩
        rw [hnx] at heq
        cases b1
        · exact ih (c + 1) s3 e (by omega) heq
        · simp at heq
    · rw [advDense_stop _ _ _ _ _ _ hc] at heq
      simp at heq

theorem advSparse_err {α : Type} {next : IterState α → Except Nat (Bool × IterState α)}
    {P : Nat → Prop} (hnext : ∀ s e, next s = .error e → P e)
    (lvl : Nat) (idxA : List Nat) (pend : Nat) :
    ∀ n p s e, pend - p ≤ n → advSparse next lvl idxA pend p s = .error e → P e := by
  intro n
  induction n with
  | zero =>
    intro p s e hn heq
    rw [advSparse_stop _ _ _ _ _ _ (by omega)] at heq
    simp at heq
  | succ n ih =>
    intro p s e hn heq
    by_cases hp : p < pend
    · rw [advSparse_go _ _ _ _ _ _ hp] at heq
      rcases hnx : next { s with ptrs := s.ptrs.set lvl p, coord := s.coord.set lvl (lget idxA p) } with
        e9 | r
      · rw [hnx] at heq
        simp only [Except.error.injEq] at heq
        exact heq ▸ hnext _ _ hnx
      · rcases r with ⟨b1, s3⟩
        rw [hnx] at heq
        cases b1
        · exact ih (p + 1) s3 e (by omega) heq
        · simp at heq
    · rw [advSparse_stop _ _ _ _ _ _ hp] at heq
      simp at heq

/-- Errors happen exactly at a visited level bearing an unimplemented
mode type: an `.error e` of `advanceIndex(lvl)` names a level
`lvl ≤ e < lvl + rem` whose mode type is `Fixed`. -/
theorem adv_err (t : PackedTensorT α) (dflt : α) :
    ∀ rem lvl s e, adv t dflt rem lvl s = .error e →
      lvl ≤ e ∧ e < lvl + rem ∧ mtAt t e = .Fixed := by
  intro rem
  induction rem with
  | zero =>
    intro lvl s e heq
    rcases hs : s.advance
    · rw [adv_leaf_fresh _ _ _ _ hs] at heq
      simp at heq
    · rw [adv_leaf_resume _ _ _ _ hs] at heq
      simp at heq
  | succ rem ih =>
    intro lvl s e heq
    have hmain : ∀ s2 e2, adv t dflt rem (lvl + 1) s2 = .error e2 →
        lvl ≤ e2 ∧ e2 < lvl + (rem + 1) ∧ mtAt t e2 = .Fixed := by
      intro s2 e2 h
      obtain ⟨h1, h2, h3⟩ := ih (lvl + 1) s2 e2 h
      exact ⟨by omega, by omega, h3⟩
    rcases hmt : mtAt t lvl with _ | _ | _
    · rcases hs : s.advance
      · rw [adv_dense_fresh _ _ _ _ _ hmt hs] at heq
        refine advDense_err hmain _ _ _ (lget (miArr t lvl 0) 0) 0 s e ?_ heq
        omega
      · rw [adv_dense_resume _ _ _ _ _ hmt hs] at heq
        rcases hnx : adv t dflt rem (lvl + 1) s with e9 | r
        · rw [hnx] at heq
          simp only [Except.error.injEq] at heq
          exact heq ▸ hmain _ _ hnx
        · rcases r with ⟨b1, s3⟩
          rw [hnx] at heq
          cases b1
          · refine advDense_err hmain _ _ _ (lget (miArr t lvl 0) 0) _ s3 e ?_ heq
            omega
          · simp at heq
    · rcases hs : s.advance
      · rw [adv_sparse_fresh _ _ _ _ _ hmt hs] at heq
        refine advSparse_err hmain _ _ _
          (lget (miArr t lvl 0) (parentOf lvl s + 1)) _ s e ?_ heq
        omega
      · rw [adv_sparse_resume _ _ _ _ _ hmt hs] at heq
        rcases hnx : adv t dflt rem (lvl + 1) s with e9 | r
        · rw [hnx] at heq
          simp only [Except.error.injEq] at heq
          exact heq ▸ hmain _ _ hnx
        · rcases r with ⟨b1, s3⟩
          rw [hnx] at heq
          cases b1
          · refine advSparse_err hmain _ _ _
              (lget (miArr t lvl 0) (parentOf lvl s + 1)) _ s3 e ?_ heq
            omega
          · simp at heq
    · rw [adv_fixed _ _ _ _ _ hmt] at heq
      simp only [Except.error.injEq] at heq
      exact ⟨by omega, by omega, heq ▸ hmt⟩

/-! ### Bridging lemmas for the simulation proof -/

theorem mtAt_mem (t : PackedTensorT α) (lvl : Nat) (h : lvl < t.format.modeTypes.length) :
    mtAt t lvl ∈ t.format.modeTypes := by
  unfold mtAt
  rw [List.getD_eq_getElem _ _ h]
  exact List.getElem_mem _

theorem adv_total (t : PackedTensorT α) (dflt : α) (rem lvl : Nat) (s : IterState α)
    (h : ∀ l, lvl ≤ l → l < lvl + rem → mtAt t l ≠ .Fixed) :
    ∃ r, adv t dflt rem lvl s = .ok r := by
  rcases heq : adv t dflt rem lvl s with e | r
  · obtain ⟨h1, h2, h3⟩ := adv_err t dflt rem lvl s e heq
    exact absurd h3 (h e h1 h2)
  · exact ⟨r, rfl⟩

theorem stateOK_of_framePr {t : PackedTensorT α} {lvl : Nat} {s s2 : IterState α}
    (h : stateOK t s) (hf : framePr lvl s s2) : stateOK t s2 :=
  ⟨hf.1.trans h.1, hf.2.1.trans h.2.1, hf.2.2.1.trans h.2.2⟩

theorem parentOf_frame {lvl : Nat} {s s2 : IterState α} (hf : frameLe lvl s s2) :
    parentOf lvl s2 = parentOf lvl s := by
  unfold parentOf
  by_cases h : lvl = 0
  · simp [h]
  · simp only [h, if_false]
    exact (hf (lvl - 1) (by omega)).2

theorem coordTake_frame {t : PackedTensorT α} {lvl : Nat} {s s2 : IterState α}
    (hOK : stateOK t s) (hOK2 : stateOK t s2) (hf : frameLe lvl s s2) :
    s2.coord.take lvl = s.coord.take lvl :=
  take_eq_of_lget s.coord s2.coord lvl (hOK2.1.trans hOK.1.symm)
    (fun i hi => (hf i hi).1)

theorem usizeVal : USIZE = 18446744073709551616 := by norm_num [USIZE]

theorem denseBaseIdx_pos (lvl : Nat) (h0 : 0 < lvl) (h : lvl < USIZE) :
    denseBaseIdx lvl = lvl - 1 := by
  unfold denseBaseIdx
  have hU := usizeVal
  have h1 : lvl + (USIZE - 1) = (lvl - 1) + 1 * USIZE := by omega
  rw [h1, Nat.add_mul_mod_self_right, Nat.mod_eq_of_lt (by omega)]

theorem dense_base_clean (t : PackedTensorT α) (lvl : Nat) (s : IterState α)
    (hlt : lvl < USIZE) :
    (if lvl = 0 then 0 else lget s.ptrs (denseBaseIdx lvl) * lget (miArr t lvl 0) 0) =
    (if lvl = 0 then 0 else parentOf lvl s * lget (miArr t lvl 0) 0) := by
  by_cases h0 : lvl = 0
  · simp [h0]
  · rw [if_neg h0, if_neg h0, denseBaseIdx_pos lvl (by omega) hlt]
    unfold parentOf
    rw [if_neg h0]

theorem adv_dense_fresh2 (t : PackedTensorT α) (dflt : α) (rem lvl : Nat) (s : IterState α)
    (hmt : mtAt t lvl = .Dense) (h : s.advance = false) (hlt : lvl < USIZE) :
    adv t dflt (rem + 1) lvl s =
      advDense (adv t dflt rem (lvl + 1)) lvl (lget (miArr t lvl 0) 0)
        (if lvl = 0 then 0 else parentOf lvl s * lget (miArr t lvl 0) 0) 0 s := by
  rw [adv_dense_fresh _ _ _ _ _ hmt h, dense_base_clean _ _ _ hlt]

theorem adv_dense_resume2 (t : PackedTensorT α) (dflt : α) (rem lvl : Nat) (s : IterState α)
    (hmt : mtAt t lvl = .Dense) (h : s.advance = true) (hlt : lvl < USIZE) :
    adv t dflt (rem + 1) lvl s =
      match adv t dflt rem (lvl + 1) s with
      | .ok (true, s2) => .ok (true, s2)
      | .ok (false, s2) =>
        advDense (adv t dflt rem (lvl + 1)) lvl (lget (miArr t lvl 0) 0)
          (if lvl = 0 then 0 else parentOf lvl s * lget (miArr t lvl 0) 0)
          (lget s2.coord lvl + 1) s2
      | .error e => .error e := by
  rw [adv_dense_resume _ _ _ _ _ hmt h, dense_base_clean _ _ _ hlt]

/-! ### The resumed-trace gluing lemmas -/

theorem advSimDenseGlue (t : PackedTensorT α) (dflt : α) (rem lvl size base c : Nat)
    (path0 : List Nat) (REST : List (List Nat × α))
    (hmt : mtAt t lvl = .Dense) (hsize : size = lget (miArr t lvl 0) 0)
    (hlt : lvl < USIZE)
    (hcont : ∀ s2, stateOK t s2 → s2.advance = false → lget s2.coord lvl = c →
      s2.coord.take lvl = path0 →
      (base = if lvl = 0 then 0 else parentOf lvl s2 * size) →
      ∃ r4 sEnd, advDense (adv t dflt rem (lvl + 1)) lvl size base (c + 1) s2 = .ok r4 ∧
        ResumeTr (adv t dflt (rem + 1) lvl) r4 REST sEnd ∧
        stateOK t sEnd ∧ sEnd.advance = false ∧ frameLe lvl s2 sEnd) :
    ∀ (L : List (List Nat × α)) (r0 : Bool × IterState α) (sIE : IterState α),
      ResumeTr (adv t dflt rem (lvl + 1)) r0 L sIE →
      ∀ sv, r0 = (true, sv) → stateOK t sv → sv.advance = true →
        lget sv.coord lvl = c → sv.coord.take lvl = path0 →
        (base = if lvl = 0 then 0 else parentOf lvl sv * size) →
        ∃ sEnd, ResumeTr (adv t dflt (rem + 1) lvl) (true, sv) (L ++ REST) sEnd ∧
          stateOK t sEnd ∧ sEnd.advance = false ∧ frameLe lvl sv sEnd := by
  intro L r0 sIE hRT
  induction hRT with
  | done sD =>
    intro sv heq
    simp at heq
  | more sM rM lM sM2 hstep ht ih =>
    intro sv heq hvOK hvadv hvc hvpath hvbase
    have hsv : sM = sv := congrArg Prod.snd heq
    subst hsv
    have hresume :
        adv t dflt (rem + 1) lvl sM =
          match adv t dflt rem (lvl + 1) sM with
          | .ok (true, s2) => .ok (true, s2)
          | .ok (false, s2) =>
            advDense (adv t dflt rem (lvl + 1)) lvl size base (lget s2.coord lvl + 1) s2
          | .error e => .error e := by
      rw [adv_dense_resume2 t dflt rem lvl sM hmt hvadv hlt, ← hsize, ← hvbase]
    rcases rM with ⟨b2, s3⟩
    have hfr : framePr (lvl + 1) sM s3 := adv_frame t dflt rem (lvl + 1) sM b2 s3 hstep
    have h3OK : stateOK t s3 := stateOK_of_framePr hvOK hfr
    have h3c : lget s3.coord lvl = c := (hfr.2.2.2 lvl (by omega)).1.trans hvc
    have h3path : s3.coord.take lvl = path0 :=
      (coordTake_frame hvOK h3OK (frameLe_mono (by omega) hfr.2.2.2)).trans hvpath
    have h3base : base = if lvl = 0 then 0 else parentOf lvl s3 * size := by
      rw [parentOf_frame (frameLe_mono (by omega) hfr.2.2.2)]
      exact hvbase
    cases b2
    · -- inner descent exhausted: the loop continues at c + 1
      cases ht
      obtain ⟨r4, sEnd, heq4, hRT4, hEOK, hEadv, hEfr⟩ :=
        hcont sM2 h3OK (adv_flag t dflt rem (lvl + 1) sM false sM2 hstep) h3c h3path h3base
      refine ⟨sEnd, ?_, hEOK, hEadv, frameLe_trans (frameLe_mono (by omega) hfr.2.2.2) hEfr⟩
      have hstep2 : adv t dflt (rem + 1) lvl sM =
          advDense (adv t dflt rem (lvl + 1)) lvl size base (lget sM2.coord lvl + 1) sM2 := by
        rw [hresume, hstep]
      rw [h3c, heq4] at hstep2
      exact ResumeTr.more sM r4 REST sEnd hstep2 hRT4
    · -- inner descent produced a leaf: propagate and recurse
      obtain ⟨sEnd, hRT2, hEOK, hEadv, hEfr⟩ :=
        ih s3 rfl h3OK (adv_flag t dflt rem (lvl + 1) sM true s3 hstep) h3c h3path h3base
      refine ⟨sEnd, ?_, hEOK, hEadv,
        frameLe_trans (frameLe_mono (by omega) hfr.2.2.2) hEfr⟩
      have hstep2 : adv t dflt (rem + 1) lvl sM = .ok (true, s3) := by
        rw [hresume, hstep]
      rw [List.cons_append]
      exact ResumeTr.more sM (true, s3) (lM ++ REST) sEnd hstep2 hRT2

theorem ResumeTr_false_inv {α : Type} {next : IterState α → Except Nat (Bool × IterState α)}
    {s : IterState α} {l : List (List Nat × α)} {sE : IterState α}
    (h : ResumeTr next (false, s) l sE) : l = [] ∧ sE = s := by
  cases h
  exact ⟨rfl, rfl⟩

theorem parentOf_set_both {lvl c v : Nat} (s : IterState α) :
    parentOf lvl { s with coord := s.coord.set lvl c, ptrs := s.ptrs.set lvl v } =
      parentOf lvl s := by
  unfold parentOf
  by_cases h0 : lvl = 0
  · simp [h0]
  · rw [if_neg h0, if_neg h0]
    exact lget_set_ne _ _ _ _ (by omega)

theorem parentOf_set_sparse {lvl c v : Nat} (s : IterState α) :
    parentOf lvl { s with ptrs := s.ptrs.set lvl v, coord := s.coord.set lvl c } =
      parentOf lvl s := by
  unfold parentOf
  by_cases h0 : lvl = 0
  · simp [h0]
  · rw [if_neg h0, if_neg h0]
    exact lget_set_ne _ _ _ _ (by omega)

theorem advSimDenseLoop (t : PackedTensorT α) (dflt : α) (rem lvl size : Nat)
    (hmt : mtAt t lvl = .Dense) (hsize : size = lget (miArr t lvl 0) 0)
    (hlt : lvl < USIZE) (hlvl : lvl + (rem + 1) = t.order)
    (IH : SimIH t dflt rem) :
    ∀ n c (s : IterState α) base, size - c ≤ n → stateOK t s → s.advance = false →
      (base = if lvl = 0 then 0 else parentOf lvl s * size) →
      ∃ r sEnd, advDense (adv t dflt rem (lvl + 1)) lvl size base c s = .ok r ∧
        ResumeTr (adv t dflt (rem + 1) lvl) r
          ((List.range' c (size - c)).flatMap fun c2 =>
            dfs t dflt rem (lvl + 1) (base + c2) (s.coord.take lvl ++ [c2])) sEnd ∧
        stateOK t sEnd ∧ sEnd.advance = false ∧ frameLe lvl s sEnd := by
  have hstop : ∀ c (s : IterState α) base, ¬ c < size → stateOK t s → s.advance = false →
      ∃ r sEnd, advDense (adv t dflt rem (lvl + 1)) lvl size base c s = .ok r ∧
        ResumeTr (adv t dflt (rem + 1) lvl) r
          ((List.range' c (size - c)).flatMap fun c2 =>
            dfs t dflt rem (lvl + 1) (base + c2) (s.coord.take lvl ++ [c2])) sEnd ∧
        stateOK t sEnd ∧ sEnd.advance = false ∧ frameLe lvl s sEnd := by
    intro c s base hc hOK hadv
    refine ⟨(false, { s with coord := s.coord.set lvl c }),
      { s with coord := s.coord.set lvl c },
      advDense_stop _ _ _ _ _ _ hc, ?_, ⟨by simp [hOK.1], hOK.2.1, hOK.2.2⟩, hadv,
      fun i hi => ⟨lget_set_ne _ _ _ _ (by omega), rfl⟩⟩
    have hr : List.range' c (size - c) = [] := by
      have h0 : size - c = 0 := by omega
      rw [h0]
      rfl
    rw [hr]
    exact ResumeTr.done _
  intro n
  induction n with
  | zero =>
    intro c s base hn hOK hadv _
    exact hstop c s base (by omega) hOK hadv
  | succ n ihn =>
    intro c s base hn hOK hadv hbase
    by_cases hc : c < size
    · have horder : lvl < t.order := by omega
      have hlenc : lvl < s.coord.length := by rw [hOK.1]; omega
      have hlenp : lvl < s.ptrs.length := by rw [hOK.2.1]; omega
      set s1 : IterState α :=
        { s with coord := s.coord.set lvl c, ptrs := s.ptrs.set lvl (base + c) } with hs1
      have h1OK : stateOK t s1 := ⟨by simp [hs1, hOK.1], by simp [hs1, hOK.2.1], hOK.2.2⟩
      obtain ⟨rIn, sIE, hInEq, hInRT, hIEOK, hIEadv, hInFr⟩ :=
        IH (lvl + 1) s1 (by omega) h1OK hadv
      have hpar : parentOf (lvl + 1) s1 = base + c := by
        unfold parentOf
        rw [if_neg (by omega), Nat.add_sub_cancel]
        exact lget_set_self _ _ _ (by simpa using hlenp)
      have hpath1 : s1.coord.take (lvl + 1) = s.coord.take lvl ++ [c] :=
        take_set_succ _ _ _ hlenc
      have hpath0 : s1.coord.take lvl = s.coord.take lvl :=
        take_set_gt _ _ _ _ (le_refl lvl)
      have hparS : parentOf lvl s1 = parentOf lvl s := parentOf_set_both s
      rw [hpar, hpath1] at hInRT
      have hrange : List.range' c (size - c) = c :: List.range' (c + 1) (size - (c + 1)) := by
        have h2 : size - c = (size - (c + 1)) + 1 := by omega
        rw [h2, List.range'_succ]
      have hcont : ∀ s2, stateOK t s2 → s2.advance = false → lget s2.coord lvl = c →
          s2.coord.take lvl = s.coord.take lvl →
          (base = if lvl = 0 then 0 else parentOf lvl s2 * size) →
          ∃ r4 sEnd, advDense (adv t dflt rem (lvl + 1)) lvl size base (c + 1) s2 = .ok r4 ∧
            ResumeTr (adv t dflt (rem + 1) lvl) r4
              ((List.range' (c + 1) (size - (c + 1))).flatMap fun c2 =>
                dfs t dflt rem (lvl + 1) (base + c2) (s.coord.take lvl ++ [c2])) sEnd ∧
            stateOK t sEnd ∧ sEnd.advance = false ∧ frameLe lvl s2 sEnd := by
        intro s2 h2OK h2adv h2c h2path h2base
        obtain ⟨r4, sEnd, heq4, hRT4, p1, p2, p3⟩ :=
          ihn (c + 1) s2 base (by omega) h2OK h2adv h2base
        rw [h2path] at hRT4
        exact ⟨r4, sEnd, heq4, hRT4, p1, p2, p3⟩
      rcases rIn with ⟨bIn, sv⟩
      have hsvFr : framePr (lvl + 1) s1 sv :=
        adv_frame t dflt rem (lvl + 1) s1 bIn sv hInEq
      have hsvOK : stateOK t sv := stateOK_of_framePr h1OK hsvFr
      have hsvc : lget sv.coord lvl = c := by
        rw [(hsvFr.2.2.2 lvl (by omega)).1]
        simp only [hs1]
        exact lget_set_self _ _ _ hlenc
      have hsvpath : sv.coord.take lvl = s.coord.take lvl :=
        (coordTake_frame h1OK hsvOK (frameLe_mono (by omega) hsvFr.2.2.2)).trans hpath0
      have hsvbase : base = if lvl = 0 then 0 else parentOf lvl sv * size := by
        rw [parentOf_frame (frameLe_mono (by omega) hsvFr.2.2.2), hparS]
        exact hbase
      cases bIn
      · -- the subtree at candidate c is exhausted immediately
        obtain ⟨hD, hsIE⟩ := ResumeTr_false_inv hInRT
        have hgo : advDense (adv t dflt rem (lvl + 1)) lvl size base c s =
            advDense (adv t dflt rem (lvl + 1)) lvl size base (c + 1) sv := by
          rw [advDense_go _ _ _ _ _ _ hc, ← hs1, hInEq]
        obtain ⟨r, sEnd, heqD2, hRT2, q1, q2, q3⟩ :=
          ihn (c + 1) sv base (by omega) hsvOK (hsIE ▸ hIEadv) hsvbase
        rw [hsvpath] at hRT2
        refine ⟨r, sEnd, hgo.trans heqD2, ?_, q1, q2, ?_⟩
        · rw [hrange, List.flatMap_cons, hD, List.nil_append]
          exact hRT2
        · exact frameLe_trans (frameLe_mono (by omega) (framePr_set_both lvl c (base + c) s).2.2.2)
            (frameLe_trans (frameLe_mono (by omega) hsvFr.2.2.2) q3)
      · -- the subtree at candidate c produced a leaf: glue the episode
        obtain ⟨sEnd, hRTG, gOK, gadv, gfr⟩ :=
          advSimDenseGlue t dflt rem lvl size base c (s.coord.take lvl)
            ((List.range' (c + 1) (size - (c + 1))).flatMap fun c2 =>
              dfs t dflt rem (lvl + 1) (base + c2) (s.coord.take lvl ++ [c2]))
            hmt hsize hlt hcont _ _ _ hInRT sv rfl hsvOK
            (adv_flag t dflt rem (lvl + 1) s1 true sv hInEq) hsvc hsvpath hsvbase
        have hgo : advDense (adv t dflt rem (lvl + 1)) lvl size base c s = .ok (true, sv) := by
          rw [advDense_go _ _ _ _ _ _ hc, ← hs1, hInEq]
        refine ⟨(true, sv), sEnd, hgo, ?_, gOK, gadv, ?_⟩
        · rw [hrange, List.flatMap_cons]
          exact hRTG
        · exact frameLe_trans (frameLe_mono (by omega) (framePr_set_both lvl c (base + c) s).2.2.2)
            (frameLe_trans (frameLe_mono (by omega) hsvFr.2.2.2) gfr)
    · exact hstop c s base hc hOK hadv

theorem advSimSparseGlue (t : PackedTensorT α) (dflt : α) (rem lvl pend p : Nat)
    (path0 : List Nat) (REST : List (List Nat × α))
    (hmt : mtAt t lvl = .Sparse)
    (hcont : ∀ s2, stateOK t s2 → s2.advance = false → lget s2.ptrs lvl = p →
      s2.coord.take lvl = path0 →
      (pend = lget (miArr t lvl 0) (parentOf lvl s2 + 1)) →
      ∃ r4 sEnd,
        advSparse (adv t dflt rem (lvl + 1)) lvl (miArr t lvl 1) pend (p + 1) s2 = .ok r4 ∧
        ResumeTr (adv t dflt (rem + 1) lvl) r4 REST sEnd ∧
        stateOK t sEnd ∧ sEnd.advance = false ∧ frameLe lvl s2 sEnd) :
    ∀ (L : List (List Nat × α)) (r0 : Bool × IterState α) (sIE : IterState α),
      ResumeTr (adv t dflt rem (lvl + 1)) r0 L sIE →
      ∀ sv, r0 = (true, sv) → stateOK t sv → sv.advance = true →
        lget sv.ptrs lvl = p → sv.coord.take lvl = path0 →
        (pend = lget (miArr t lvl 0) (parentOf lvl sv + 1)) →
        ∃ sEnd, ResumeTr (adv t dflt (rem + 1) lvl) (true, sv) (L ++ REST) sEnd ∧
          stateOK t sEnd ∧ sEnd.advance = false ∧ frameLe lvl sv sEnd := by
  intro L r0 sIE hRT
  induction hRT with
  | done sD =>
    intro sv heq
    simp at heq
  | more sM rM lM sM2 hstep ht ih =>
    intro sv heq hvOK hvadv hvp hvpath hvpend
    have hsv : sM = sv := congrArg Prod.snd heq
    subst hsv
    have hresume :
        adv t dflt (rem + 1) lvl sM =
          match adv t dflt rem (lvl + 1) sM with
          | .ok (true, s2) => .ok (true, s2)
          | .ok (false, s2) =>
            advSparse (adv t dflt rem (lvl + 1)) lvl (miArr t lvl 1) pend
              (lget s2.ptrs lvl + 1) s2
          | .error e => .error e := by
      rw [adv_sparse_resume _ _ _ _ _ hmt hvadv, ← hvpend]
    rcases rM with ⟨b2, s3⟩
    have hfr : framePr (lvl + 1) sM s3 := adv_frame t dflt rem (lvl + 1) sM b2 s3 hstep
    have h3OK : stateOK t s3 := stateOK_of_framePr hvOK hfr
    have h3p : lget s3.ptrs lvl = p := (hfr.2.2.2 lvl (by omega)).2.trans hvp
    have h3path : s3.coord.take lvl = path0 :=
      (coordTake_frame hvOK h3OK (frameLe_mono (by omega) hfr.2.2.2)).trans hvpath
    have h3pend : pend = lget (miArr t lvl 0) (parentOf lvl s3 + 1) := by
      rw [parentOf_frame (frameLe_mono (by omega) hfr.2.2.2)]
      exact hvpend
    cases b2
    · -- inner descent exhausted: the loop continues at p + 1
      cases ht
      obtain ⟨r4, sEnd, heq4, hRT4, hEOK, hEadv, hEfr⟩ :=
        hcont sM2 h3OK (adv_flag t dflt rem (lvl + 1) sM false sM2 hstep) h3p h3path h3pend
      refine ⟨sEnd, ?_, hEOK, hEadv, frameLe_trans (frameLe_mono (by omega) hfr.2.2.2) hEfr⟩
      have hstep2 : adv t dflt (rem + 1) lvl sM =
          advSparse (adv t dflt rem (lvl + 1)) lvl (miArr t lvl 1) pend
            (lget sM2.ptrs lvl + 1) sM2 := by
        rw [hresume, hstep]
      rw [h3p, heq4] at hstep2
      exact ResumeTr.more sM r4 REST sEnd hstep2 hRT4
    · -- inner descent produced a leaf: propagate and recurse
      obtain ⟨sEnd, hRT2, hEOK, hEadv, hEfr⟩ :=
        ih s3 rfl h3OK (adv_flag t dflt rem (lvl + 1) sM true s3 hstep) h3p h3path h3pend
      refine ⟨sEnd, ?_, hEOK, hEadv,
        frameLe_trans (frameLe_mono (by omega) hfr.2.2.2) hEfr⟩
      have hstep2 : adv t dflt (rem + 1) lvl sM = .ok (true, s3) := by
        rw [hresume, hstep]
      rw [List.cons_append]
      exact ResumeTr.more sM (true, s3) (lM ++ REST) sEnd hstep2 hRT2

theorem advSimSparseLoop (t : PackedTensorT α) (dflt : α) (rem lvl : Nat)
    (hmt : mtAt t lvl = .Sparse) (hlvl : lvl + (rem + 1) = t.order)
    (IH : SimIH t dflt rem) :
    ∀ n p (s : IterState α) pend, pend - p ≤ n → stateOK t s → s.advance = false →
      (pend = lget (miArr t lvl 0) (parentOf lvl s + 1)) →
      ∃ r sEnd, advSparse (adv t dflt rem (lvl + 1)) lvl (miArr t lvl 1) pend p s = .ok r ∧
        ResumeTr (adv t dflt (rem + 1) lvl) r
          ((List.range' p (pend - p)).flatMap fun p2 =>
            dfs t dflt rem (lvl + 1) p2 (s.coord.take lvl ++ [lget (miArr t lvl 1) p2])) sEnd ∧
        stateOK t sEnd ∧ sEnd.advance = false ∧ frameLe lvl s sEnd := by
  have hstop : ∀ p (s : IterState α) pend, ¬ p < pend → stateOK t s → s.advance = false →
      ∃ r sEnd, advSparse (adv t dflt rem (lvl + 1)) lvl (miArr t lvl 1) pend p s = .ok r ∧
        ResumeTr (adv t dflt (rem + 1) lvl) r
          ((List.range' p (pend - p)).flatMap fun p2 =>
            dfs t dflt rem (lvl + 1) p2 (s.coord.take lvl ++ [lget (miArr t lvl 1) p2])) sEnd ∧
        stateOK t sEnd ∧ sEnd.advance = false ∧ frameLe lvl s sEnd := by
    intro p s pend hp hOK hadv
    refine ⟨(false, { s with ptrs := s.ptrs.set lvl p }),
      { s with ptrs := s.ptrs.set lvl p },
      advSparse_stop _ _ _ _ _ _ hp, ?_, ⟨hOK.1, by simp [hOK.2.1], hOK.2.2⟩, hadv,
      fun i hi => ⟨rfl, lget_set_ne _ _ _ _ (by omega)⟩⟩
    have hr : List.range' p (pend - p) = [] := by
      have h0 : pend - p = 0 := by omega
      rw [h0]
      rfl
    rw [hr]
    exact ResumeTr.done _
  intro n
  induction n with
  | zero =>
    intro p s pend hn hOK hadv _
    exact hstop p s pend (by omega) hOK hadv
  | succ n ihn =>
    intro p s pend hn hOK hadv hpend
    by_cases hp : p < pend
    · have horder : lvl < t.order := by omega
      have hlenc : lvl < s.coord.length := by rw [hOK.1]; omega
      have hlenp : lvl < s.ptrs.length := by rw [hOK.2.1]; omega
      set s1 : IterState α :=
        { s with ptrs := s.ptrs.set lvl p
               , coord := s.coord.set lvl (lget (miArr t lvl 1) p) } with hs1
      have h1OK : stateOK t s1 := ⟨by simp [hs1, hOK.1], by simp [hs1, hOK.2.1], hOK.2.2⟩
      obtain ⟨rIn, sIE, hInEq, hInRT, hIEOK, hIEadv, hInFr⟩ :=
        IH (lvl + 1) s1 (by omega) h1OK hadv
      have hpar : parentOf (lvl + 1) s1 = p := by
        unfold parentOf
        rw [if_neg (by omega), Nat.add_sub_cancel]
        exact lget_set_self _ _ _ (by simpa using hlenp)
      have hpath1 : s1.coord.take (lvl + 1) =
          s.coord.take lvl ++ [lget (miArr t lvl 1) p] :=
        take_set_succ _ _ _ hlenc
      have hpath0 : s1.coord.take lvl = s.coord.take lvl :=
        take_set_gt _ _ _ _ (le_refl lvl)
      have hparS : parentOf lvl s1 = parentOf lvl s := parentOf_set_sparse s
      rw [hpar, hpath1] at hInRT
      have hrange : List.range' p (pend - p) = p :: List.range' (p + 1) (pend - (p + 1)) := by
        have h2 : pend - p = (pend - (p + 1)) + 1 := by omega
        rw [h2, List.range'_succ]
      have hcont : ∀ s2, stateOK t s2 → s2.advance = false → lget s2.ptrs lvl = p →
          s2.coord.take lvl = s.coord.take lvl →
          (pend = lget (miArr t lvl 0) (parentOf lvl s2 + 1)) →
          ∃ r4 sEnd,
            advSparse (adv t dflt rem (lvl + 1)) lvl (miArr t lvl 1) pend (p + 1) s2 = .ok r4 ∧
            ResumeTr (adv t dflt (rem + 1) lvl) r4
              ((List.range' (p + 1) (pend - (p + 1))).flatMap fun p2 =>
                dfs t dflt rem (lvl + 1) p2
                  (s.coord.take lvl ++ [lget (miArr t lvl 1) p2])) sEnd ∧
            stateOK t sEnd ∧ sEnd.advance = false ∧ frameLe lvl s2 sEnd := by
        intro s2 h2OK h2adv h2p h2path h2pend
        obtain ⟨r4, sEnd, heq4, hRT4, p1, p2, p3⟩ :=
          ihn (p + 1) s2 pend (by omega) h2OK h2adv h2pend
        rw [h2path] at hRT4
        exact ⟨r4, sEnd, heq4, hRT4, p1, p2, p3⟩
      rcases rIn with ⟨bIn, sv⟩
      have hsvFr : framePr (lvl + 1) s1 sv :=
        adv_frame t dflt rem (lvl + 1) s1 bIn sv hInEq
      have hsvOK : stateOK t sv := stateOK_of_framePr h1OK hsvFr
      have hsvp : lget sv.ptrs lvl = p := by
        rw [(hsvFr.2.2.2 lvl (by omega)).2]
        simp only [hs1]
        exact lget_set_self _ _ _ (by simpa using hlenp)
      have hsvpath : sv.coord.take lvl = s.coord.take lvl :=
        (coordTake_frame h1OK hsvOK (frameLe_mono (by omega) hsvFr.2.2.2)).trans hpath0
      have hsvpend : pend = lget (miArr t lvl 0) (parentOf lvl sv + 1) := by
        rw [parentOf_frame (frameLe_mono (by omega) hsvFr.2.2.2), hparS]
        exact hpend
      cases bIn
      · -- the subtree at position p is exhausted immediately
        obtain ⟨hD, hsIE⟩ := ResumeTr_false_inv hInRT
        have hgo : advSparse (adv t dflt rem (lvl + 1)) lvl (miArr t lvl 1) pend p s =
            advSparse (adv t dflt rem (lvl + 1)) lvl (miArr t lvl 1) pend (p + 1) sv := by
          rw [advSparse_go _ _ _ _ _ _ hp, ← hs1, hInEq]
        obtain ⟨r, sEnd, heqD2, hRT2, q1, q2, q3⟩ :=
          ihn (p + 1) sv pend (by omega) hsvOK (hsIE ▸ hIEadv) hsvpend
        rw [hsvpath] at hRT2
        refine ⟨r, sEnd, hgo.trans heqD2, ?_, q1, q2, ?_⟩
        · rw [hrange, List.flatMap_cons, hD, List.nil_append]
          exact hRT2
        · refine frameLe_trans ?_ (frameLe_trans (frameLe_mono (by omega) hsvFr.2.2.2) q3)
          exact fun i hi => ⟨lget_set_ne _ _ _ _ (by omega), lget_set_ne _ _ _ _ (by omega)⟩
      · -- the subtree at position p produced a leaf: glue the episode
        obtain ⟨sEnd, hRTG, gOK, gadv, gfr⟩ :=
          advSimSparseGlue t dflt rem lvl pend p (s.coord.take lvl)
            ((List.range' (p + 1) (pend - (p + 1))).flatMap fun p2 =>
              dfs t dflt rem (lvl + 1) p2 (s.coord.take lvl ++ [lget (miArr t lvl 1) p2]))
            hmt hcont _ _ _ hInRT sv rfl hsvOK
            (adv_flag t dflt rem (lvl + 1) s1 true sv hInEq) hsvp hsvpath hsvpend
        have hgo : advSparse (adv t dflt rem (lvl + 1)) lvl (miArr t lvl 1) pend p s =
            .ok (true, sv) := by
          rw [advSparse_go _ _ _ _ _ _ hp, ← hs1, hInEq]
        refine ⟨(true, sv), sEnd, hgo, ?_, gOK, gadv, ?_⟩
        · rw [hrange, List.flatMap_cons]
          exact hRTG
        · refine frameLe_trans ?_ (frameLe_trans (frameLe_mono (by omega) hsvFr.2.2.2) gfr)
          exact fun i hi => ⟨lget_set_ne _ _ _ _ (by omega), lget_set_ne _ _ _ _ (by omega)⟩
    · exact hstop p s pend hp hOK hadv

theorem parentOf_if (lvl : Nat) (s : IterState α) :
    (if lvl = 0 then 0 else parentOf lvl s) = parentOf lvl s := by
  by_cases h : lvl = 0 <;> simp [h, parentOf]

/-- The simulation: from any consistent fresh cursor state,
`advanceIndex(lvl)` and its resumed continuations emit exactly the
depth-first enumeration of the remaining levels. -/
theorem advSim (t : PackedTensorT α) (dflt : α) (hwf : WFT t) (hsup : SupportedT t) :
    ∀ rem, SimIH t dflt rem := by
  intro rem
  induction rem with
  | zero =>
    intro lvl s hlvl hOK hadv
    have hl : lvl = t.order := by omega
    refine ⟨(true, { s with
        curVal := (permAssign t.format.modeOrdering s.coord s.curVal.1 lvl,
                   t.vals.getD (parentOf lvl s) dflt)
      , advance := true }),
      { s with
        curVal := (permAssign t.format.modeOrdering s.coord s.curVal.1 lvl,
                   t.vals.getD (parentOf lvl s) dflt)
      , advance := false },
      adv_leaf_fresh t dflt lvl s hadv, ?_, ?_, rfl,
      fun i hi => ⟨rfl, rfl⟩⟩
    · have hTr : dfs t dflt 0 lvl (parentOf lvl s) (s.coord.take lvl) =
          [(permAssign t.format.modeOrdering s.coord s.curVal.1 lvl,
            t.vals.getD (parentOf lvl s) dflt)] := by
        show [(permAssign t.format.modeOrdering (s.coord.take lvl)
                (List.replicate t.order 0) t.order,
               t.vals.getD (if lvl = 0 then 0 else parentOf lvl s) dflt)] = _
        rw [parentOf_if]
        have htake : s.coord.take lvl = s.coord := by
          rw [hl, ← hOK.1]
          exact List.take_length s.coord
        rw [htake, hl]
        rw [permAssign_init_indep t.format.modeOrdering s.coord
          (List.replicate t.order 0) s.curVal.1 t.order hwf.2.2.1
          (List.length_replicate _ _) hOK.2.2]
      rw [hTr]
      exact ResumeTr.more _ (false, _) [] _ (adv_leaf_resume t dflt lvl _ rfl)
        (ResumeTr.done _)
    · exact ⟨hOK.1, hOK.2.1, by
        show (permAssign t.format.modeOrdering s.coord s.curVal.1 lvl).length = t.order
        rw [permAssign_length]
        exact hOK.2.2⟩
  | succ rem ih =>
    intro lvl s hlvl hOK hadv
    have horder : lvl < t.order := by omega
    have hltu : lvl < USIZE := by
      have := hwf.2.2.2
      omega
    have hmem : mtAt t lvl ∈ t.format.modeTypes := mtAt_mem t lvl (by rw [hwf.1]; omega)
    rcases hsup _ hmem with hmt | hmt
    · obtain ⟨r, sEnd, heq, hRT, p1, p2, p3⟩ :=
        advSimDenseLoop t dflt rem lvl (lget (miArr t lvl 0) 0) hmt rfl hltu hlvl ih
          (lget (miArr t lvl 0) 0) 0 s
          (if lvl = 0 then 0 else parentOf lvl s * lget (miArr t lvl 0) 0)
          (by omega) hOK hadv rfl
      refine ⟨r, sEnd, ?_, ?_, p1, p2, p3⟩
      · rw [adv_dense_fresh2 t dflt rem lvl s hmt hadv hltu]
        exact heq
      · rw [dfs_dense t dflt rem lvl _ _ hmt, List.range_eq_range']
        simpa using hRT
    · obtain ⟨r, sEnd, heq, hRT, p1, p2, p3⟩ :=
        advSimSparseLoop t dflt rem lvl hmt hlvl ih
          (lget (miArr t lvl 0) (parentOf lvl s + 1))
          (lget (miArr t lvl 0) (parentOf lvl s)) s
          (lget (miArr t lvl 0) (parentOf lvl s + 1))
          (by omega) hOK hadv rfl
      refine ⟨r, sEnd, ?_, ?_, p1, p2, p3⟩
      · rw [adv_sparse_fresh t dflt rem lvl s hmt hadv]
        exact heq
      · rw [dfs_sparse t dflt rem lvl _ _ hmt, parentOf_if]
        exact hRT

/-! ### Traversal enumerates the depth-first walk (C1) -/

/-- C1: over any packed tensor whose mode types are all Dense or
Compressed (with per-level metadata of the right arity and a mode
ordering that is a permutation), the iterator's `advanceIndex` calls,
starting from the freshly constructed cursor, produce exactly the
depth-first leaf enumeration `dfsAll`: Dense levels scan child positions
`[0, extent)` scaled by the parent position (with synthetic root position
0), Compressed levels scan `[pos[parent], pos[parent+1])` reading
coordinates from the coordinate array, and each leaf pairs the coordinate
vector permuted back through the mode ordering with the value entry at
the last level's offset. -/
theorem claim1_traversal_dfs (t : PackedTensorT α) (dflt : α)
    (hwf : WFT t) (hsup : SupportedT t) :
    Enumerates t dflt (dfsAll t dflt) := by
  obtain ⟨r, sEnd, heq, hRT, _, _, _⟩ :=
    advSim t dflt hwf hsup t.order 0 (initState t dflt) (by omega)
      ⟨by simp [initState], by simp [initState], by simp [initState]⟩ rfl
  refine ⟨r, sEnd, heq, ?_⟩
  simpa [dfsAll, parentOf] using hRT

theorem claim1_traversal_dfs_witness :
    WFT exMixed ∧ SupportedT exMixed ∧ Enumerates exMixed 0 (dfsAll exMixed 0) := by
  have hwf : WFT exMixed := ⟨by decide, by decide, by decide, by norm_num [exMixed, USIZE]⟩
  have hsup : SupportedT exMixed := by
    intro mt hmt
    simp only [exMixed, List.mem_cons, List.not_mem_nil, or_false] at hmt
    exact hmt
  exact ⟨hwf, hsup, claim1_traversal_dfs exMixed 0 hwf hsup⟩

/-! ### Unsupported mode types (C7) -/

/-- C7: a call of `advanceIndex(lvl)` reaches the
`taco_not_supported_yet` failure exactly when a level it visits bears a
mode type that is neither Dense nor Sparse: (1) an error names a level in
`[lvl, order)` whose mode type is neither; (2) when every mode type is
Dense or Compressed the failure branch is unreachable (every call returns
ok); (3) when the current level's mode type is neither, the call fails
there at once. -/
theorem claim7_unsupported_mode (t : PackedTensorT α) (dflt : α) (rem lvl : Nat)
    (s : IterState α) (hlen : t.format.modeTypes.length = t.order)
    (hlr : lvl + rem = t.order) :
    (∀ e, adv t dflt rem lvl s = .error e →
      lvl ≤ e ∧ e < t.order ∧ mtAt t e ≠ .Dense ∧ mtAt t e ≠ .Sparse) ∧
    (SupportedT t → ∃ r, adv t dflt rem lvl s = .ok r) ∧
    (∀ rem2, rem = rem2 + 1 → mtAt t lvl ≠ .Dense → mtAt t lvl ≠ .Sparse →
      adv t dflt rem lvl s = .error lvl) := by
  refine ⟨?_, ?_, ?_⟩
  · intro e heq
    obtain ⟨h1, h2, h3⟩ := adv_err t dflt rem lvl s e heq
    exact ⟨h1, by omega, by simp [h3], by simp [h3]⟩
  · intro hsup
    refine adv_total t dflt rem lvl s ?_
    intro l hl1 hl2
    have hmem : mtAt t l ∈ t.format.modeTypes := mtAt_mem t l (by omega)
    rcases hsup _ hmem with h | h <;> rw [h] <;> intro hx <;> cases hx
  · intro rem2 hrem hd hsp
    subst hrem
    have hfx : mtAt t lvl = .Fixed := by
      rcases hmt : mtAt t lvl with _ | _ | _
      · exact absurd hmt hd
      · exact absurd hmt hsp
      · rfl
    exact adv_fixed t dflt rem2 lvl s hfx

theorem claim7_unsupported_mode_witness :
    exFixed.format.modeTypes.length = exFixed.order ∧ (0 : Nat) + 2 = exFixed.order ∧
    ((∀ e, adv exFixed 0 2 0 (initState exFixed 0) = .error e →
        0 ≤ e ∧ e < exFixed.order ∧ mtAt exFixed e ≠ .Dense ∧ mtAt exFixed e ≠ .Sparse) ∧
     (SupportedT exFixed → ∃ r, adv exFixed 0 2 0 (initState exFixed 0) = .ok r) ∧
     (∀ rem2, 2 = rem2 + 1 → mtAt exFixed 0 ≠ .Dense → mtAt exFixed 0 ≠ .Sparse →
       adv exFixed 0 2 0 (initState exFixed 0) = .error 0)) :=
  ⟨by decide, by decide,
   claim7_unsupported_mode exFixed 0 2 0 (initState exFixed 0) (by decide) (by decide)⟩

/-! ### Iterator counting (C2) -/

theorem stepIter_iterate_count (t : PackedTensorT α) (dflt : α) (it : TIter α) :
    ∀ n, ((stepIter t dflt)^[n] it).count = it.count + n ∧
      ((stepIter t dflt)^[n] it).tid = it.tid := by
  intro n
  induction n with
  | zero => simp
  | succ n ih =>
    rw [Function.iterate_succ_apply']
    refine ⟨?_, ?_⟩
    · simp only [stepIter]
      omega
    · simp only [stepIter]
      exact ih.2

/-- C2: over any packed tensor, advancing `begin()` exactly
`Index.getSize()` times — and no other number of times — produces an
iterator equal to `end()`, and `operator==` holds between two iterators
iff they reference the same tensor and carry the same
elements-produced count (storage is never dereferenced: `iterEq` reads
only those two fields). -/
theorem claim2_iterator_count (t : PackedTensorT α) (dflt : α) (tid n : Nat)
    (i j : TIter α) :
    (iterEq ((stepIter t dflt)^[n] (mkIter t dflt tid false)) (mkIter t dflt tid true)
      ↔ n = t.index.size) ∧
    (iterEq i j ↔ i.tid = j.tid ∧ i.count = j.count) := by
  constructor
  · have h := stepIter_iterate_count t dflt (mkIter t dflt tid false) n
    unfold iterEq
    rw [h.1, h.2]
    have h1 : (mkIter t dflt tid false).count = 2 := by simp [mkIter]
    have h2 : (mkIter t dflt tid true).count = 2 + t.index.size := by
      simp only [mkIter, if_true]
      omega
    have h3 : (mkIter t dflt tid true).tid = tid ∧ (mkIter t dflt tid false).tid = tid := by
      exact ⟨rfl, rfl⟩
    rw [h1, h2, h3.1, h3.2]
    constructor
    · rintro ⟨-, hc⟩
      omega
    · rintro rfl
      exact ⟨rfl, rfl⟩
  · exact Iff.rfl

/-! ### Insert error handling (C3) -/

/-- C3: `insert` fails with `DimensionMismatch` when the coordinate arity
differs from the tensor order, fails with `TypeMismatch` when the value's
kind disagrees with the component type, and in either case returns the
tensor (hence the coordinate buffer and its used-bytes count) unchanged. -/
theorem claim3_insert_errors (t : TBaseT) (coordinate : List Int)
    (vdt : DataTypeT) (v : Int) :
    (coordinate.length ≠ t.order →
      insertTB t coordinate vdt v = (some .DimensionMismatch, t)) ∧
    (coordinate.length = t.order → vdt ≠ t.ctype →
      insertTB t coordinate vdt v = (some .TypeMismatch, t)) := by
  constructor
  · intro h
    simp [insertTB, h]
  · intro h1 h2
    simp [insertTB, h1, Ne.symm h2]

theorem claim3_insert_errors_witness :
    (insertTB (scalarTB .i32) [1] .i32 5 = (some .DimensionMismatch, scalarTB .i32)) ∧
    (insertTB (scalarTB .i32) [] .f64 5 = (some .TypeMismatch, scalarTB .i32)) :=
  ⟨(claim3_insert_errors (scalarTB .i32) [1] .i32 5).1 (by decide),
   (claim3_insert_errors (scalarTB .i32) [] .f64 5).2 (by decide) (by decide)⟩

/-! ### Insert growth policy (C8) -/

/-- C8 counterexample: with a full 32-byte buffer and a 16-byte record,
`insert` grows the buffer to 48 bytes — not to at least double (64). -/
theorem claim8_growth_cex :
    (insertTB cex8 [0, 1, 2] .i32 7).2.buffer.sizeBytes = 48 ∧
    ¬ 2 * cex8.buffer.sizeBytes ≤ (insertTB cex8 [0, 1, 2] .i32 7).2.buffer.sizeBytes := by
  decide

/-- C8 amended: when the free space is short of one record, `insert`
grows the buffer by exactly one record size (additively, not
geometrically), then appends the fixed-size record (coordinates followed
by the value) at the old used offset and advances the used-bytes count;
it succeeds for any in-arity coordinate values (no bounds validation)
and leaves all previously written records untouched (no sorting or
deduplication). -/
theorem claim8_growth_append (t : TBaseT) (coordinate : List Int)
    (vdt : DataTypeT) (v : Int)
    (harity : coordinate.length = t.order) (htype : vdt = t.ctype)
    (hfull : t.buffer.sizeBytes - t.used < t.coordSize) :
    insertTB t coordinate vdt v =
      (none,
       { t with
         buffer := ⟨t.buffer.sizeBytes + t.coordSize,
                    (t.used, ⟨coordinate, ⟨vdt, v⟩⟩) :: t.buffer.recs⟩
         used := t.used + t.coordSize }) := by
  simp [insertTB, harity, htype, hfull]

theorem claim8_growth_append_witness :
    [(0 : Int), 1, 2].length = cex8.order ∧ DataTypeT.i32 = cex8.ctype ∧
    cex8.buffer.sizeBytes - cex8.used < cex8.coordSize ∧
    insertTB cex8 [0, 1, 2] .i32 7 =
      (none,
       { cex8 with
         buffer := ⟨cex8.buffer.sizeBytes + cex8.coordSize,
                    (cex8.used, ⟨[0, 1, 2], ⟨.i32, 7⟩⟩) :: cex8.buffer.recs⟩
         used := cex8.used + cex8.coordSize }) :=
  ⟨by decide, by decide, by decide,
   claim8_growth_append cex8 [0, 1, 2] .i32 7 (by decide) (by decide) (by decide)⟩

/-! ### The out-of-range `ptrs` read in the Dense branch (C10) -/

/-- C10: at the outermost level the Dense branch of `advanceIndex`
computes the base child position by reading `ptrs[lvl - 1]` before the
`lvl == 0` override (tensor.h:398-399); with `size_t lvl = 0` that
subtraction wraps to `2^64 - 1`, so the read index — `denseBaseIdx 0` in
the embedding of `adv` — lies far outside `[0, order)` (here checked
against the order-1 failing tensor). -/
theorem claim10_dense_base_read :
    denseBaseIdx 0 = 2 ^ 64 - 1 ∧ ¬ denseBaseIdx 0 < 1 := by
  constructor
  · show (0 + (2 ^ 64 - 1)) % 2 ^ 64 = 2 ^ 64 - 1
    rw [Nat.zero_add, Nat.mod_eq_of_lt (by norm_num)]
  · show ¬ (0 + (USIZE - 1)) % USIZE < 1
    rw [Nat.zero_add, Nat.mod_eq_of_lt (by norm_num [USIZE])]
    norm_num [USIZE]

/-! ### CSR round trip (C4) -/

/-- C4: a CSR tensor built by `makeCSR` from caller-owned
rowptr/colidx/vals arrays exports, through `getCSRArrays`, exactly those
same three arrays (zero-copy), all still tagged caller-owned; its Index
is one Dense outer level sized by the row count and one Compressed inner
level whose position array has length = outer extent + 1. -/
theorem claim4_csr_roundtrip (name : String) (dims : List Nat)
    (rowptr colidx : List Int) (vals : List α)
    (hdims : dims.length = 2) (hrp : rowptr.length = dims.getD 0 0 + 1) :
    getCSRArraysT (makeCSRT name dims rowptr colidx vals) = some (rowptr, colidx, vals) ∧
    (makeCSRT name dims rowptr colidx vals).format = CSRfmt ∧
    (makeCSRT name dims rowptr colidx vals).index.modeIndices.length = 2 ∧
    ((makeCSRT name dims rowptr colidx vals).index.modeIndices.getD 0 ⟨[]⟩).arrays
      = [⟨[Int.ofNat (dims.getD 0 0)], .LibraryOwns⟩] ∧
    (((makeCSRT name dims rowptr colidx vals).index.modeIndices.getD 1 ⟨[]⟩).arrays.getD 0
      ⟨[], .LibraryOwns⟩).data.length = dims.getD 0 0 + 1 ∧
    (((makeCSRT name dims rowptr colidx vals).index.modeIndices.getD 1 ⟨[]⟩).arrays.getD 0
      ⟨[], .LibraryOwns⟩).owner = .UserOwns ∧
    (((makeCSRT name dims rowptr colidx vals).index.modeIndices.getD 1 ⟨[]⟩).arrays.getD 1
      ⟨[], .LibraryOwns⟩).owner = .UserOwns ∧
    (makeCSRT name dims rowptr colidx vals).values = ⟨vals, .UserOwns⟩ := by
  refine ⟨?_, rfl, rfl, rfl, ?_, rfl, rfl, rfl⟩
  · simp [getCSRArraysT, makeCSRT, makeCSRIndexA]
  · simpa [makeCSRT, makeCSRIndexA] using hrp

/-! ### Handle aliasing (C5) -/

theorem find_map_update {β : Type} (l : List (Nat × β)) (k : Nat) (v : β)
    (x : Nat × β) (h : l.find? (fun e => e.1 = k) = some x) :
    (l.map fun e => if e.1 = k then (k, v) else e).find? (fun e => e.1 = k) = some (k, v) := by
  induction l with
  | nil => simp at h
  | cons hd tl ih =>
    by_cases hk : hd.1 = k
    · simp only [List.map_cons, if_pos hk]
      rw [List.find?_cons_of_pos _ (by simp)]
    · simp only [List.map_cons, if_neg hk]
      rw [List.find?_cons_of_neg _ (by simp [hk])]
      rw [List.find?_cons_of_neg _ (by simp [hk])] at h
      exact ih h

theorem lookupB_updateB (st : StoreT) (bid : Nat) (buf b : BufferT)
    (h : lookupB st bid = some b) : lookupB (updateB st bid buf) bid = some buf := by
  unfold lookupB at h ⊢
  obtain ⟨x, hx, hx2⟩ := Option.map_eq_some'.mp h
  have hpx : x.1 = bid := by simpa using List.find?_some hx
  unfold updateB
  rw [find_map_update st.buffers bid buf x hx]
  rfl

theorem lookupC_updateB (st : StoreT) (bid : Nat) (buf : BufferT) (cid : Nat) :
    lookupC (updateB st bid buf) cid = lookupC st cid := rfl

/-- C5 counterexample: after an `insert` through handle `h5` of the heap
`st5`, the acting handle's used-bytes count has advanced to 8, but the
count seen through the prior copy of the handle is still 0 — the
used-bytes advance is not observable via the other handle. -/
theorem claim5_alias_cex :
    (insertH st5 h5 [2] .i32 7).1 = none ∧
    (insertH st5 h5 [2] .i32 7).2.2.used = 8 ∧
    (copyH h5).used = 0 ∧
    ¬ (copyH h5).used = (insertH st5 h5 [2] .i32 7).2.2.used := by
  decide

/-- C5 amended: a copy of a tensor handle shares the `Content` and the
coordinate buffer (same heap keys), so the record a successful `insert`
appends to the shared buffer — and the untouched shared `Content` — are
observable through the copy; but `coordinateBufferUsed` is a per-handle
field, so the used-bytes advance is visible only on the acting handle,
while the copy's count keeps its old value. -/
theorem claim5_alias (st : StoreT) (h : HandleT) (c : ContentT) (b : BufferT)
    (coordinate : List Int) (vdt : DataTypeT) (v : Int)
    (hc : lookupC st h.cid = some c) (h1 : coordinate.length = c.order)
    (h2 : c.ctype = vdt) (hb : lookupB st h.bid = some b) :
    (insertH st h coordinate vdt v).1 = none ∧
    (copyH h).cid = h.cid ∧ (copyH h).bid = h.bid ∧
    lookupC (insertH st h coordinate vdt v).2.1 (copyH h).cid = some c ∧
    lookupB (insertH st h coordinate vdt v).2.1 (copyH h).bid =
      some { sizeBytes :=
               if b.sizeBytes - h.used < h.coordSize then b.sizeBytes + h.coordSize
               else b.sizeBytes
           , recs := (h.used, ⟨coordinate, ⟨vdt, v⟩⟩) :: b.recs } ∧
    (copyH h).used = h.used ∧
    (insertH st h coordinate vdt v).2.2.used = h.used + h.coordSize := by
  have hins : insertH st h coordinate vdt v =
      (none,
       updateB st h.bid
         { sizeBytes :=
             if b.sizeBytes - h.used < h.coordSize then b.sizeBytes + h.coordSize
           else b.sizeBytes
         , recs := (h.used, ⟨coordinate, ⟨vdt, v⟩⟩) :: b.recs },
       { h with used := h.used + h.coordSize }) := by
    unfold insertH
    rw [hc]
    simp only [h1, h2, hb]
    by_cases hg : b.sizeBytes - h.used < h.coordSize <;> simp [hg]
  rw [hins]
  refine ⟨rfl, rfl, rfl, ?_, ?_, rfl, rfl⟩
  · rw [lookupC_updateB]
    exact hc
  · exact lookupB_updateB st h.bid _ b hb

theorem claim5_alias_witness :
    lookupC st5 h5.cid = some c5 ∧
    lookupB st5 h5.bid = some ⟨0, []⟩ ∧
    ((insertH st5 h5 [2] .i32 7).1 = none ∧
     (copyH h5).cid = h5.cid ∧ (copyH h5).bid = h5.bid ∧
     lookupC (insertH st5 h5 [2] .i32 7).2.1 (copyH h5).cid = some c5 ∧
     lookupB (insertH st5 h5 [2] .i32 7).2.1 (copyH h5).bid =
       some { sizeBytes := if (0 : Nat) - h5.used < h5.coordSize then 0 + h5.coordSize else 0
            , recs := (h5.used, ⟨[2], ⟨.i32, 7⟩⟩) :: ([] : List (Nat × RecordT)) } ∧
     (copyH h5).used = h5.used ∧
     (insertH st5 h5 [2] .i32 7).2.2.used = h5.used + h5.coordSize) :=
  ⟨by decide, by decide,
   claim5_alias st5 h5 c5 ⟨0, []⟩ [2] .i32 7 (by decide) (by decide) (by decide) (by decide)⟩

/-! ### Scalar-constructor traversal (C9) -/

/-- C9: an order-0 tensor built by the scalar constructor — insert the
empty coordinate tuple with value `v`, then pack — iterates to exactly
one produced pair: the empty coordinate vector with value `v`; its
Index size is 1. -/
theorem claim9_scalar_iteration (v : Int) :
    collect (scalarPacked v) dfltVal 2 (initState (scalarPacked v) dfltVal)
      = [([], ⟨.i32, v⟩)] ∧
    (scalarPacked v).index.size = 1 := by
  have e1 : (insertTB (scalarTB DataTypeT.i32) [] DataTypeT.i32 v).2 =
      ⟨0, .i32, [], 4, ⟨4, [(0, ⟨[], ⟨.i32, v⟩⟩)]⟩, 4⟩ := rfl
  have e2 : scalarPacked v = ⟨0, ⟨[], []⟩, ⟨[], 1⟩, [⟨.i32, v⟩]⟩ := by
    simp only [scalarPacked, e1]
    rfl
  rw [e2]
  exact ⟨rfl, rfl⟩

theorem claim4_csr_roundtrip_witness :
    ([3, 3] : List Nat).length = 2 ∧
    ([(0 : Int), 2, 2, 3]).length = ([3, 3] : List Nat).getD 0 0 + 1 ∧
    getCSRArraysT (makeCSRT "M" [3, 3] [0, 2, 2, 3] [0, 2, 1] [(10 : Int), 20, 30])
      = some ([0, 2, 2, 3], [0, 2, 1], [10, 20, 30]) :=
  ⟨by decide, by decide,
   (claim4_csr_roundtrip "M" [3, 3] [0, 2, 2, 3] [0, 2, 1] [(10 : Int), 20, 30]
     (by decide) (by decide)).1⟩

/-! ### Heap lemmas for the transpose proof (C6) -/

theorem find_map_update_ne {β : Type} (l : List (Nat × β)) (k k2 : Nat) (v : β)
    (hne : k2 ≠ k) :
    (l.map fun e => if e.1 = k then (k, v) else e).find? (fun e => e.1 = k2) =
      l.find? (fun e => e.1 = k2) := by
  induction l with
  | nil => rfl
  | cons hd tl ih =>
    by_cases hk : hd.1 = k
    · simp only [List.map_cons, if_pos hk]
      rw [List.find?_cons_of_neg _ (by simp [Ne.symm hne]),
          List.find?_cons_of_neg _ (by simp [hk]; exact Ne.symm hne)]
      exact ih
    · simp only [List.map_cons, if_neg hk]
      by_cases h2 : hd.1 = k2
      · rw [List.find?_cons_of_pos _ (by simp [h2]), List.find?_cons_of_pos _ (by simp [h2])]
      · rw [List.find?_cons_of_neg _ (by simp [h2]), List.find?_cons_of_neg _ (by simp [h2])]
        exact ih

theorem lookupC_updateC_ne (st : StoreT) (cid : Nat) (c2 : ContentT) (cid2 : Nat)
    (h : cid2 ≠ cid) : lookupC (updateC st cid c2) cid2 = lookupC st cid2 := by
  unfold lookupC updateC
  rw [find_map_update_ne _ _ _ _ h]

theorem lookupB_updateB_ne (st : StoreT) (bid : Nat) (b2 : BufferT) (bid2 : Nat)
    (h : bid2 ≠ bid) : lookupB (updateB st bid b2) bid2 = lookupB st bid2 := by
  unfold lookupB updateB
  rw [find_map_update_ne _ _ _ _ h]

theorem lookupC_updateC_self (st : StoreT) (cid : Nat) (c c2 : ContentT)
    (h : lookupC st cid = some c) : lookupC (updateC st cid c2) cid = some c2 := by
  unfold lookupC at h ⊢
  obtain ⟨x, hx, hx2⟩ := Option.map_eq_some'.mp h
  unfold updateC
  rw [find_map_update st.contents cid c2 x hx]
  rfl

theorem updateB_contents (st : StoreT) (bid : Nat) (b : BufferT) :
    (updateB st bid b).contents = st.contents := rfl

theorem mem_keys_of_lookupC (st : StoreT) (k : Nat) (c : ContentT)
    (h : lookupC st k = some c) : k ∈ st.contents.map (·.1) := by
  unfold lookupC at h
  obtain ⟨x, hx, _⟩ := Option.map_eq_some'.mp h
  have h1 : x.1 = k := by simpa using List.find?_some hx
  rw [← h1]
  exact List.mem_map_of_mem _ (List.mem_of_find?_eq_some hx)

theorem mem_keys_of_lookupB (st : StoreT) (k : Nat) (b : BufferT)
    (h : lookupB st k = some b) : k ∈ st.buffers.map (·.1) := by
  unfold lookupB at h
  obtain ⟨x, hx, _⟩ := Option.map_eq_some'.mp h
  have h1 : x.1 = k := by simpa using List.find?_some hx
  rw [← h1]
  exact List.mem_map_of_mem _ (List.mem_of_find?_eq_some hx)

theorem le_foldr_max (xs : List Nat) : ∀ x ∈ xs, x ≤ xs.foldr max 0 := by
  induction xs with
  | nil => simp
  | cons hd tl ih =>
    intro x hx
    rcases hx with _ | hx
    · exact le_max_left _ _
    · exact le_trans (ih x (by assumption)) (le_max_right _ _)

theorem freshId_not_mem {β : Type} (l : List (Nat × β)) : freshId l ∉ l.map (·.1) := by
  intro hmem
  have := le_foldr_max (l.map (·.1)) _ hmem
  unfold freshId at this
  omega

theorem dtSize_pos (dt : DataTypeT) : 0 < dtSize dt := by
  cases dt <;> decide

/-- Characterization of the insert fold `transpose` performs. -/
theorem foldIns_spec (c : ContentT) :
    ∀ (items : List (List Int × TValT)) (st : StoreT) (h : HandleT) (buf : BufferT),
      lookupC st h.cid = some c →
      lookupB st h.bid = some buf →
      (∀ pr ∈ items, pr.1.length = c.order ∧ pr.2.dt = c.ctype) →
      (items.foldl
        (fun (acc : StoreT × HandleT) (pr : List Int × TValT) =>
          let r := insertH acc.1 acc.2 pr.1 pr.2.dt pr.2.bits
          (r.2.1, r.2.2)) (st, h)).2.cid = h.cid ∧
      (items.foldl
        (fun (acc : StoreT × HandleT) (pr : List Int × TValT) =>
          let r := insertH acc.1 acc.2 pr.1 pr.2.dt pr.2.bits
          (r.2.1, r.2.2)) (st, h)).2.bid = h.bid ∧
      (items.foldl
        (fun (acc : StoreT × HandleT) (pr : List Int × TValT) =>
          let r := insertH acc.1 acc.2 pr.1 pr.2.dt pr.2.bits
          (r.2.1, r.2.2)) (st, h)).2.coordSize = h.coordSize ∧
      (items.foldl
        (fun (acc : StoreT × HandleT) (pr : List Int × TValT) =>
          let r := insertH acc.1 acc.2 pr.1 pr.2.dt pr.2.bits
          (r.2.1, r.2.2)) (st, h)).2.used = h.used + items.length * h.coordSize ∧
      (items.foldl
        (fun (acc : StoreT × HandleT) (pr : List Int × TValT) =>
          let r := insertH acc.1 acc.2 pr.1 pr.2.dt pr.2.bits
          (r.2.1, r.2.2)) (st, h)).1.contents = st.contents ∧
      (∃ sz, lookupB (items.foldl
        (fun (acc : StoreT × HandleT) (pr : List Int × TValT) =>
          let r := insertH acc.1 acc.2 pr.1 pr.2.dt pr.2.bits
          (r.2.1, r.2.2)) (st, h)).1 h.bid =
        some ⟨sz, (seedList h.coordSize items h.used).reverse ++ buf.recs⟩) ∧
      (∀ b2, b2 ≠ h.bid → lookupB (items.foldl
        (fun (acc : StoreT × HandleT) (pr : List Int × TValT) =>
          let r := insertH acc.1 acc.2 pr.1 pr.2.dt pr.2.bits
          (r.2.1, r.2.2)) (st, h)).1 b2 = lookupB st b2) := by
  intro items
  induction items with
  | nil =>
    intro st h buf hc hb _
    refine ⟨rfl, rfl, rfl, by simp, rfl, ⟨buf.sizeBytes, ?_⟩, fun b2 _ => rfl⟩
    show lookupB st h.bid = _
    rw [hb]
    rfl
  | cons pr rest ih =>
    intro st h buf hc hb hitems
    have harity : pr.1.length = c.order := (hitems pr (List.mem_cons_self _ _)).1
    have htype : pr.2.dt = c.ctype := (hitems pr (List.mem_cons_self _ _)).2
    have hins : insertH st h pr.1 pr.2.dt pr.2.bits =
        (none,
         updateB st h.bid
           { sizeBytes :=
               if buf.sizeBytes - h.used < h.coordSize then buf.sizeBytes + h.coordSize
               else buf.sizeBytes
           , recs := (h.used, ⟨pr.1, pr.2⟩) :: buf.recs },
         { h with used := h.used + h.coordSize }) := by
      unfold insertH
      rw [hc]
      simp only [harity, htype, hb]
      by_cases hg : buf.sizeBytes - h.used < h.coordSize <;>
        (simp [hg]; rw [← htype])
    have hstep : (pr :: rest).foldl
        (fun (acc : StoreT × HandleT) (pr : List Int × TValT) =>
          let r := insertH acc.1 acc.2 pr.1 pr.2.dt pr.2.bits
          (r.2.1, r.2.2)) (st, h) =
        rest.foldl
          (fun (acc : StoreT × HandleT) (pr : List Int × TValT) =>
            let r := insertH acc.1 acc.2 pr.1 pr.2.dt pr.2.bits
            (r.2.1, r.2.2))
          (updateB st h.bid
             { sizeBytes :=
                 if buf.sizeBytes - h.used < h.coordSize then buf.sizeBytes + h.coordSize
                 else buf.sizeBytes
             , recs := (h.used, ⟨pr.1, pr.2⟩) :: buf.recs },
           { h with used := h.used + h.coordSize }) := by
      rw [List.foldl_cons]
      simp only [hins]
    rw [hstep]
    obtain ⟨q1, q2, q3, q4, q5, ⟨sz, q6⟩, q7⟩ := ih
      (updateB st h.bid
        { sizeBytes :=
            if buf.sizeBytes - h.used < h.coordSize then buf.sizeBytes + h.coordSize
            else buf.sizeBytes
        , recs := (h.used, ⟨pr.1, pr.2⟩) :: buf.recs })
      { h with used := h.used + h.coordSize }
      { sizeBytes :=
          if buf.sizeBytes - h.used < h.coordSize then buf.sizeBytes + h.coordSize
          else buf.sizeBytes
      , recs := (h.used, ⟨pr.1, pr.2⟩) :: buf.recs }
      (by rw [lookupC_updateB]; exact hc)
      (lookupB_updateB st h.bid _ buf hb)
      (fun x hx => hitems x (List.mem_cons_of_mem _ hx))
    refine ⟨q1, q2, q3, ?_, q5.trans rfl, ⟨sz, ?_⟩, ?_⟩
    · rw [q4]
      simp only [List.length_cons, Nat.succ_mul]
      omega
    · rw [q6]
      simp [seedList, List.append_assoc]
    · intro b2 hb2
      rw [q7 b2 hb2, lookupB_updateB_ne st h.bid _ b2 hb2]

theorem seedList_offset_le (cs : Nat) :
    ∀ (items : List (List Int × TValT)) (off0 : Nat) (x : Nat × RecordT),
      x ∈ seedList cs items off0 → off0 ≤ x.1 := by
  intro items
  induction items with
  | nil => intro off0 x hx; simp [seedList] at hx
  | cons pr rest ih =>
    intro off0 x hx
    rcases hx with _ | hx
    · exact le_refl _
    · exact le_trans (by omega) (ih (off0 + cs) x (by assumption))

theorem recAt_append_left (l1 l2 : List (Nat × RecordT)) (off : Nat) (r : RecordT)
    (h : recAt l1 off = some r) : recAt (l1 ++ l2) off = some r := by
  unfold recAt at h ⊢
  obtain ⟨x, hx, hx2⟩ := Option.map_eq_some'.mp h
  rw [List.find?_append, hx]
  simpa using hx2

theorem recAt_append_right (l1 l2 : List (Nat × RecordT)) (off : Nat)
    (h : ∀ x ∈ l1, x.1 ≠ off) : recAt (l1 ++ l2) off = recAt l2 off := by
  unfold recAt
  rw [List.find?_append]
  have h1 : l1.find? (fun e => e.1 = off) = none :=
    List.find?_eq_none.mpr (fun x hx => by simpa using h x hx)
  rw [h1]
  rfl

theorem recAt_seed (cs : Nat) (hcs : 0 < cs) :
    ∀ (items : List (List Int × TValT)) (off0 k : Nat), k < items.length →
      recAt ((seedList cs items off0).reverse) (off0 + k * cs) =
        some ⟨(items.getD k ([], dfltVal)).1, (items.getD k ([], dfltVal)).2⟩ := by
  intro items
  induction items with
  | nil => intro off0 k hk; simp at hk
  | cons pr rest ih =>
    intro off0 k hk
    have hseed : (seedList cs (pr :: rest) off0).reverse =
        (seedList cs rest (off0 + cs)).reverse ++ [(off0, ⟨pr.1, pr.2⟩)] := by
      simp [seedList]
    rw [hseed]
    cases k with
    | zero =>
      rw [recAt_append_right]
      · unfold recAt
        rw [List.find?_cons_of_pos _ (by simp)]
        rfl
      · intro x hx
        have := seedList_offset_le cs rest (off0 + cs) x (List.mem_reverse.mp hx)
        omega
    | succ k2 =>
      have hoff : off0 + (k2 + 1) * cs = (off0 + cs) + k2 * cs := by ring
      rw [hoff]
      rw [recAt_append_left _ _ _ _ (ih (off0 + cs) k2 (by simpa using hk))]
      rfl

theorem filterMap_eq_map_of_some {β γ : Type} (l : List β) (f : β → Option γ) (g : β → γ)
    (h : ∀ x ∈ l, f x = some (g x)) : l.filterMap f = l.map g := by
  induction l with
  | nil => rfl
  | cons hd tl ih =>
    rw [List.filterMap_cons, h hd (List.mem_cons_self _ _), List.map_cons]
    rw [ih (fun x hx => h x (List.mem_cons_of_mem _ hx))]

theorem range_map_getD {β : Type} (l : List β) (d : β) :
    (List.range l.length).map (fun k => l.getD k d) = l := by
  apply List.ext_getElem (by simp)
  intro i h1 h2
  simp only [List.getElem_map, List.getElem_range]
  exact List.getD_eq_getElem l d h2

theorem recordsOf_seed (cs : Nat) (hcs : 0 < cs) (items : List (List Int × TValT)) :
    recordsOf ((seedList cs items 0).reverse) cs (items.length * cs) =
      items.map (fun pr => (⟨pr.1, pr.2⟩ : RecordT)) := by
  unfold recordsOf
  rw [Nat.mul_div_cancel _ hcs]
  rw [filterMap_eq_map_of_some _ _
    (fun k => ⟨(items.getD k ([], dfltVal)).1, (items.getD k ([], dfltVal)).2⟩)
    (fun k hk => by
      have := recAt_seed cs hcs items 0 k (List.mem_range.mp hk)
      simpa using this)]
  rw [show (fun k => (⟨(items.getD k ([], dfltVal)).1,
        (items.getD k ([], dfltVal)).2⟩ : RecordT)) =
      (fun pr => (⟨pr.1, pr.2⟩ : RecordT)) ∘ (fun k => items.getD k ([], dfltVal)) from rfl]
  rw [← List.map_map, range_map_getD]

/-! ### Transpose builds and packs a fresh tensor (C6) -/

/-- C6: `transpose(name, newModeOrdering, format)` allocates a new
`Content` (at a fresh heap address, with the given new name) and a new
coordinate buffer (also fresh), seeds that buffer by inserting, for every
leaf of the depth-first traversal of the source, the coordinate permuted
by the new mode ordering, packs the new tensor before returning it (its
storage is the packed image of exactly that insertion stream and its
buffer usage is reset), and leaves the source tensor's Content — with
its storage — and its coordinate buffer unchanged. -/
theorem claim6_transpose (st : StoreT) (h : HandleT) (tname : String)
    (ordering : List Nat) (fmt : FormatT) (c : ContentT) (stor : IndexT × List TValT)
    (b : BufferT)
    (hc : lookupC st h.cid = some c)
    (hs : c.storage = some stor)
    (hb : lookupB st h.bid = some b)
    (hord : ordering.length = c.order)
    (hvals : ∀ pr ∈ dfsAll (toPacked c stor) dfltVal, pr.2.dt = c.ctype) :
    (transposeH st h tname ordering fmt).2.cid = freshId st.contents ∧
    (transposeH st h tname ordering fmt).2.bid = freshId st.buffers ∧
    freshId st.contents ∉ st.contents.map (·.1) ∧
    freshId st.buffers ∉ st.buffers.map (·.1) ∧
    lookupC (transposeH st h tname ordering fmt).1 h.cid = some c ∧
    lookupB (transposeH st h tname ordering fmt).1 h.bid = some b ∧
    (transposeH st h tname ordering fmt).2.used = 0 ∧
    lookupC (transposeH st h tname ordering fmt).1 (freshId st.contents) =
      some { name := tname
           , order := (ordering.map fun m => c.dims.getD m 0).length
           , dims := ordering.map fun m => c.dims.getD m 0
           , ctype := c.ctype
           , modeTypes := fmt.modeTypes
           , modeOrdering := fmt.modeOrdering
           , storage := some (specPack (ordering.map fun m => c.dims.getD m 0).length
               ⟨fmt.modeTypes, fmt.modeOrdering⟩ (ordering.map fun m => c.dims.getD m 0)
               ((permItems ordering (dfsAll (toPacked c stor) dfltVal)).map
                 fun pr => ⟨pr.1, pr.2⟩)) } := by
  have hcidne : h.cid ≠ freshId st.contents := by
    intro hx
    exact freshId_not_mem st.contents (hx ▸ mem_keys_of_lookupC st h.cid c hc)
  have hbidne : h.bid ≠ freshId st.buffers := by
    intro hx
    exact freshId_not_mem st.buffers (hx ▸ mem_keys_of_lookupB st h.bid b hb)
  set cid2 := freshId st.contents with hcid2
  set bid2 := freshId st.buffers with hbid2
  set newDims := ordering.map fun m => c.dims.getD m 0 with hnd
  set newContent : ContentT :=
    { name := tname, order := newDims.length, dims := newDims, ctype := c.ctype
    , modeTypes := fmt.modeTypes, modeOrdering := fmt.modeOrdering
    , storage := none } with hnc
  set st1 : StoreT :=
    { contents := (cid2, newContent) :: st.contents
    , buffers := (bid2, ⟨0, []⟩) :: st.buffers } with hst1
  set h1 : HandleT :=
    { cid := cid2, bid := bid2, used := 0
    , coordSize := 4 * newDims.length + dtSize c.ctype } with hh1
  set items := permItems ordering (dfsAll (toPacked c stor) dfltVal) with hit
  have htr : transposeH st h tname ordering fmt =
      packH (items.foldl
        (fun (acc : StoreT × HandleT) (pr : List Int × TValT) =>
          let r := insertH acc.1 acc.2 pr.1 pr.2.dt pr.2.bits
          (r.2.1, r.2.2)) (st1, h1)).1
        (items.foldl
        (fun (acc : StoreT × HandleT) (pr : List Int × TValT) =>
          let r := insertH acc.1 acc.2 pr.1 pr.2.dt pr.2.bits
          (r.2.1, r.2.2)) (st1, h1)).2 := by
    simp only [transposeH, hc, hs]
  have hlook1 : lookupC st1 h1.cid = some newContent := by
    unfold lookupC
    rw [hst1]
    show ((((cid2, newContent) :: st.contents).find? fun e => e.1 = cid2).map (·.2)) = _
    rw [List.find?_cons_of_pos _ (by simp)]
    rfl
  have hlookb1 : lookupB st1 h1.bid = some ⟨0, []⟩ := by
    unfold lookupB
    rw [hst1]
    show ((((bid2, (⟨0, []⟩ : BufferT)) :: st.buffers).find? fun e => e.1 = bid2).map (·.2)) = _
    rw [List.find?_cons_of_pos _ (by simp)]
    rfl
  have hitems : ∀ pr ∈ items, pr.1.length = newContent.order ∧ pr.2.dt = newContent.ctype := by
    intro pr hpr
    rw [hit] at hpr
    unfold permItems at hpr
    obtain ⟨x, hx, hx2⟩ := List.mem_map.mp hpr
    constructor
    · rw [← hx2]
      show (permCoord ordering x.1).length = newDims.length
      unfold permCoord
      rw [hnd]
      simp
    · rw [← hx2]
      exact hvals x hx
  obtain ⟨q1, q2, q3, q4, q5, ⟨sz, q6⟩, q7⟩ := foldIns_spec newContent items st1 h1 ⟨0, []⟩
    hlook1 hlookb1 hitems
  set folded := items.foldl
    (fun (acc : StoreT × HandleT) (pr : List Int × TValT) =>
      let r := insertH acc.1 acc.2 pr.1 pr.2.dt pr.2.bits
      (r.2.1, r.2.2)) (st1, h1) with hfold
  have hcs : h1.coordSize = 4 * newDims.length + dtSize c.ctype := rfl
  have hcspos : 0 < h1.coordSize := by
    rw [hcs]
    have := dtSize_pos c.ctype
    omega
  have hlookfc : lookupC folded.1 folded.2.cid = some newContent := by
    unfold lookupC
    rw [q5, q1]
    unfold lookupC at hlook1
    exact hlook1
  have hbufrecs : lookupB folded.1 folded.2.bid =
      some ⟨sz, (seedList h1.coordSize items 0).reverse⟩ := by
    rw [q2]
    show lookupB folded.1 h1.bid = _
    rw [q6]
    simp
  have hpack : packH folded.1 folded.2 =
      (updateC folded.1 folded.2.cid
        { newContent with storage := some (specPack newContent.order
            ⟨newContent.modeTypes, newContent.modeOrdering⟩ newContent.dims
            (recordsOf ((seedList h1.coordSize items 0).reverse)
              folded.2.coordSize folded.2.used)) },
       { folded.2 with used := 0 }) := by
    unfold packH
    rw [hlookfc, hbufrecs]
    rfl
  have hrecs : recordsOf ((seedList h1.coordSize items 0).reverse)
      folded.2.coordSize folded.2.used = items.map fun pr => ⟨pr.1, pr.2⟩ := by
    rw [q3, q4]
    show recordsOf _ h1.coordSize (0 + items.length * h1.coordSize) = _
    rw [Nat.zero_add]
    exact recordsOf_seed h1.coordSize hcspos items
  rw [htr, hpack, hrecs]
  have q1f : (folded.2).cid = freshId st.contents := q1
  refine ⟨q1, q2, freshId_not_mem _, freshId_not_mem _, ?_, ?_, rfl, ?_⟩
  · rw [q1, lookupC_updateC_ne _ _ _ _ hcidne]
    unfold lookupC
    rw [q5, hst1]
    show ((((cid2, newContent) :: st.contents).find? fun e => e.1 = h.cid).map (·.2)) = _
    rw [List.find?_cons_of_neg _ (by simp; exact Ne.symm hcidne)]
    exact hc
  · have hupc : ∀ (stx : StoreT) (k : Nat) (cx : ContentT) (b2 : Nat),
        lookupB (updateC stx k cx) b2 = lookupB stx b2 := fun _ _ _ _ => rfl
    rw [hupc]
    rw [q7 h.bid (fun hx => hbidne hx)]
    unfold lookupB
    rw [hst1]
    show ((((bid2, (⟨0, []⟩ : BufferT)) :: st.buffers).find? fun e => e.1 = h.bid).map (·.2)) = _
    rw [List.find?_cons_of_neg _ (by simp; exact Ne.symm hbidne)]
    exact hb
  · rw [q1f] at hlookfc ⊢
    exact lookupC_updateC_self folded.1 (freshId st.contents) newContent _ hlookfc

theorem claim6_transpose_witness :
    lookupC st6 h6.cid = some c6 ∧ c6.storage ≠ none ∧
    lookupB st6 h6.bid = some ⟨0, []⟩ ∧ ([1, 0] : List Nat).length = c6.order ∧
    ((transposeH st6 h6 "B" [1, 0] ⟨[.Dense, .Sparse], [0, 1]⟩).2.cid = freshId st6.contents ∧
     (transposeH st6 h6 "B" [1, 0] ⟨[.Dense, .Sparse], [0, 1]⟩).2.bid = freshId st6.buffers ∧
     freshId st6.contents ∉ st6.contents.map (·.1) ∧
     freshId st6.buffers ∉ st6.buffers.map (·.1) ∧
     lookupC (transposeH st6 h6 "B" [1, 0] ⟨[.Dense, .Sparse], [0, 1]⟩).1 h6.cid = some c6 ∧
     lookupB (transposeH st6 h6 "B" [1, 0] ⟨[.Dense, .Sparse], [0, 1]⟩).1 h6.bid =
       some ⟨0, []⟩ ∧
     (transposeH st6 h6 "B" [1, 0] ⟨[.Dense, .Sparse], [0, 1]⟩).2.used = 0 ∧
     lookupC (transposeH st6 h6 "B" [1, 0] ⟨[.Dense, .Sparse], [0, 1]⟩).1
         (freshId st6.contents) =
       some { name := "B"
            , order := (([1, 0] : List Nat).map fun m => c6.dims.getD m 0).length
            , dims := ([1, 0] : List Nat).map fun m => c6.dims.getD m 0
            , ctype := c6.ctype
            , modeTypes := [.Dense, .Sparse]
            , modeOrdering := [0, 1]
            , storage := some (specPack (([1, 0] : List Nat).map fun m => c6.dims.getD m 0).length
                ⟨[.Dense, .Sparse], [0, 1]⟩ (([1, 0] : List Nat).map fun m => c6.dims.getD m 0)
                ((permItems [1, 0] (dfsAll (toPacked c6
                    (⟨⟨[⟨[[3]]⟩, ⟨[[0, 2, 2, 3], [0, 2, 1]]⟩], 3⟩,
                      [⟨.i32, 1⟩, ⟨.i32, 2⟩, ⟨.i32, 3⟩]⟩)) dfltVal)).map
                  fun pr => ⟨pr.1, pr.2⟩)) }) := by
  refine ⟨by decide, by decide, by decide, by decide, ?_⟩
  exact claim6_transpose st6 h6 "B" [1, 0] ⟨[.Dense, .Sparse], [0, 1]⟩ c6
    ⟨⟨[⟨[[3]]⟩, ⟨[[0, 2, 2, 3], [0, 2, 1]]⟩], 3⟩, [⟨.i32, 1⟩, ⟨.i32, 2⟩, ⟨.i32, 3⟩]⟩
    ⟨0, []⟩ (by decide) (by decide) (by decide) (by decide) (by decide)

end Taco
